import Mathlib

/-!
Verification development for the graphml diff/merge engine of
`bionetgen/tools/gdiff.py` (class `BNGGdiff`).

The engine works on dictionaries produced by `xmltodict` from graphml files.
We embed the well-formed documents described by the spec (§3): every non-root
node carries an `@id` string, a style block with a label (`y:NodeLabel`
`#text`), a fill color (`y:Fill` `@color`) and a font size
(`y:NodeLabel` `@fontSize`), and an optional nested graph.  In `xmltodict`
a graph element with exactly one child node parses as a plain dict and a
graph with two or more children parses as a list; we model children
uniformly as a `List GNode` where a singleton list corresponds to the
dict case and a node with no nested graph element has `sub = []`.
Top-level edges are modelled as a list (the list case of `xmltodict`).

Python `while` loops and recursions over the nested dictionaries are
embedded as fuel-indexed structural recursions; running out of fuel
produces the error value `"RecursionError"`, so every theorem that is
conditioned on an `Except.ok` result is independent of the particular
fuel supplied.  Python exceptions (KeyError, IndexError, ValueError,
UnboundLocalError, ...) are modelled through the `Except String` monad.
-/

namespace Gdiff

/-- A graphml node as parsed by xmltodict: `@id`, the `y:NodeLabel` text,
the `y:Fill` `@color`, the `y:NodeLabel` `@fontSize`, and the children of
its nested `graph` element (empty list when the node has no graph key). -/
inductive GNode : Type where
  | mk (id : String) (label : String) (color : String) (fontSize : String)
       (sub : List GNode) : GNode

def GNode.id : GNode → String
  | .mk i _ _ _ _ => i

def GNode.label : GNode → String
  | .mk _ l _ _ _ => l

def GNode.color : GNode → String
  | .mk _ _ c _ _ => c

def GNode.fontSize : GNode → String
  | .mk _ _ _ f _ => f

def GNode.sub : GNode → List GNode
  | .mk _ _ _ _ s => s

/-- A top-level graphml edge: `@id`, `@source`, `@target`. -/
structure Edge : Type where
  id : String
  source : String
  target : String

/-- The root `graphml` / `graph` container: top-level nodes and the
top-level edge list. -/
structure TopGraph : Type where
  nodes : List GNode
  edges : List Edge

/-- A colors dictionary as used by `diff_graphs` / `_find_diff`: three
slots, each a list of fill colors indexed by the color class (0 species,
1 component, 2 state). -/
structure Palette : Type where
  g1 : List String
  g2 : List String
  intersect : List String

/-- The mutable state of a `BNGGdiff` instance that the diff touches:
the two parsed input documents `self.gdict_1` / `self.gdict_2` and the
recolored reference copies produced as a side effect of `_find_diff`. -/
structure Engine : Type where
  gdict1 : TopGraph
  gdict2 : TopGraph
  recolor1 : Option TopGraph
  recolor2 : Option TopGraph

/-- The fixed `self.colors` palette set in `BNGGdiff.__init__`. -/
def instColors : Palette :=
  { g1 := ["#dadbfd", "#e6e7fe", "#f3f3ff"]
    g2 := ["#ff9e81", "#ffbfaa", "#ffdfd4"]
    intersect := ["#c4ed9e", "#d9f4be", "#ecf9df"] }

/-! ## Python primitives -/

/-- Python list indexing `l[i]` for a non-negative index. -/
def pyIndex (l : List String) (i : Nat) : Except String String :=
  match l.get? i with
  | some x => .ok x
  | none => .error "IndexError: list index out of range"

/-- Python `l[-1]`. -/
def pyLastE {α : Type} (l : List α) : Except String α :=
  match l.getLast? with
  | some x => .ok x
  | none => .error "IndexError: list index out of range"

/-- Python `new_id[-1] += 1` on a list of integers. -/
def pyIncLast (l : List Nat) : Except String (List Nat) :=
  match l.getLast? with
  | some x => .ok (l.dropLast ++ [x + 1])
  | none => .error "IndexError: list index out of range"

/-- The rename map built during diff/merge.  A Python dict with string
keys; we keep the insertion history as a list with the newest binding in
front, which realizes the overwrite-on-insert semantics of `dict`. -/
abbrev RMap : Type := List (String × String)

def rinsert (m : RMap) (k v : String) : RMap := (k, v) :: m

/-- Python `rename_map[k]`: raises `KeyError` when the key is absent. -/
def rlookupE (m : RMap) (k : String) : Except String String :=
  match m.find? (fun p => p.1 == k) with
  | some p => .ok p.2
  | none => .error ("KeyError: " ++ k)

/-! ## Identifier strings (`_get_id_list` / `_get_id_str`)

Python renders identifier lists with `"::".join(f"n{i}" for i in ids)`
and parses them with `int(x[1:]) for x in idstr.split("::")`.  We embed
`str.split("::")` (leftmost, non-overlapping), decimal rendering of a
natural number, and the digit-string fragment of Python `int`. -/

/-- Python `s.split("::")` on the character list of `s`. -/
def split2 : List Char → List (List Char)
  | [] => [[]]
  | [c] => [[c]]
  | c1 :: c2 :: rest =>
    if c1 = ':' ∧ c2 = ':' then [] :: split2 rest
    else
      match split2 (c2 :: rest) with
      | [] => [[c1]]
      | seg :: segs => (c1 :: seg) :: segs

/-- Python `"::".join(segments)` on character lists. -/
def join2 : List (List Char) → List Char
  | [] => []
  | [s] => s
  | s :: rest => s ++ ':' :: ':' :: join2 rest

def digitChar (d : Nat) : Char := Char.ofNat (48 + d)

def digitVal (c : Char) : Nat := c.toNat - 48

/-- The numeric value of a digit string. -/
def parseVal (cs : List Char) : Nat :=
  cs.foldl (fun a c => 10 * a + digitVal c) 0

/-- Python `int` restricted to plain decimal digit strings: any other
input (in particular the empty string) raises `ValueError`.  Python's
`int` also accepts signs, whitespace and underscore separators, none of
which can occur in identifier segments rendered by this module. -/
def pyNat? (cs : List Char) : Option Nat :=
  if cs.isEmpty then none
  else if cs.all Char.isDigit then some (parseVal cs)
  else none

/-- Decimal rendering of a natural number (fuel-indexed; the wrapper
`natToChars` always supplies enough fuel). -/
def natToCharsAux : Nat → Nat → List Char
  | 0, _ => []
  | fuel + 1, n =>
    if n < 10 then [digitChar n]
    else natToCharsAux fuel (n / 10) ++ [digitChar (n % 10)]

def natToChars (n : Nat) : List Char := natToCharsAux (n + 1) n

/-- `BNGGdiff._get_id_list`: split on `"::"` and parse `int(x[1:])` for
each segment. -/
def getIdList (idstr : String) : Except String (List Nat) :=
  mapSegs (split2 idstr.data)
where
  mapSegs : List (List Char) → Except String (List Nat)
    | [] => .ok []
    | seg :: rest => do
      let v ←
        match pyNat? (seg.drop 1) with
        | some v => Except.ok v
        | none => Except.error "ValueError: invalid literal for int() with base 10"
      let vs ← mapSegs rest
      .ok (v :: vs)

/-- `BNGGdiff._get_id_str`: render each integer as `n<decimal>` and join
with `"::"`. -/
def getIdStr (idList : List Nat) : String :=
  ⟨join2 (idList.map (fun i => 'n' :: natToChars i))⟩

/-! ## Node accessors of `BNGGdiff` -/

/-- `BNGGdiff._get_color_id`: classify a node by its current fill color. -/
def getColorId (node : GNode) : Except String Nat :=
  if node.color = "#D2D2D2" then .ok 0        -- grey indicates a species
  else if node.color = "#FFFFFF" then .ok 1   -- white indicates a component
  else if node.color = "#FFCC00" then .ok 2   -- yellow indicates a state
  else .error ("RuntimeError: Node color " ++ node.color ++ " doesn't match known colors")

/-- `BNGGdiff._color_node`: overwrite the fill color. -/
def colorNode (node : GNode) (color : String) : GNode :=
  match node with
  | .mk i l _ f s => .mk i l color f s

/-- `BNGGdiff._resize_node_font`: the source sets the font size to
`str(size)` (despite the comment at the call site saying it adds). -/
def resizeNodeFont (node : GNode) (size : Nat) : GNode :=
  match node with
  | .mk i l c _ s => .mk i l c (toString size) s

/-- `BNGGdiff._get_font_size`: `int` of the `@fontSize` attribute. -/
def getFontSize (node : GNode) : Except String Nat :=
  match pyNat? node.fontSize.data with
  | some v => .ok v
  | none => .error "ValueError: invalid literal for int() with base 10"

/-- `BNGGdiff._set_node_id` (the `@id` key is always present on a
well-formed node, so the update always happens). -/
def setNodeId (node : GNode) (idstr : String) : GNode :=
  match node with
  | .mk _ l c f s => .mk idstr l c f s

/-! ## The path resolver `BNGGdiff._get_node_from_names`

The Python loop keeps three pieces of state: the current candidate list
`nodes`, the most recently matched `node` (a local variable that may be
unbound), and a per-iteration `found` flag.  On a list context it scans
for the first child whose label equals the key and descends only when the
match has a nested graph; on a dict (single-child) context it compares the
single child's label and then descends through the *bound* variable —
which may be stale from an earlier iteration, or unbound (raising
`UnboundLocalError`).  After the loop only the `found` flag of the last
iteration decides between returning the bound node and `None`.

We additionally thread the position (index path) of the bound node so
that in-place mutations through the returned reference can be replayed
on the immutable tree. -/

/-- First child (with its index, counting from `i`) whose label equals
`key`. -/
def findIdxWithLabel : List GNode → String → Nat → Option (Nat × GNode)
  | [], _, _ => none
  | n :: rest, key, i =>
    if n.label = key then some (i, n) else findIdxWithLabel rest key (i + 1)

/-- One iteration of the resolver loop over the current key: returns
the next candidate context, its position, the bound node and the `found`
flag of this iteration. -/
def resolveStep (ctx : List GNode) (ctxPath : List Nat)
    (bound : Option (List Nat × GNode)) (key : String) :
    Except String (List GNode × List Nat × Option (List Nat × GNode) × Bool) :=
  match ctx with
  | [m] =>
    -- xmltodict dict case: `isinstance(nodes, list)` is false; the
    -- descent consults the *bound* variable, which may be stale or unbound
    let matched := m.label == key
    let bound' := if matched then some (ctxPath ++ [0], m) else bound
    match bound' with
    | none => .error "UnboundLocalError: local variable node referenced before assignment"
    | some (bloc, bn) =>
      if bn.sub.isEmpty then .ok (ctx, ctxPath, bound', matched)
      else .ok (bn.sub, bloc, bound', matched)
  | _ =>
    -- list case: scan for the first child carrying the key as label
    match findIdxWithLabel ctx key 0 with
    | some (i, n) =>
      if n.sub.isEmpty then .ok (ctx, ctxPath, some (ctxPath ++ [i], n), true)
      else .ok (n.sub, ctxPath ++ [i], some (ctxPath ++ [i], n), true)
    | none => .ok (ctx, ctxPath, bound, false)

def resolveLoop : List String → List GNode → List Nat →
    Option (List Nat × GNode) → Bool → Except String (Bool × Option (List Nat × GNode))
  | [], _, _, bound, found => .ok (found, bound)
  | key :: rest, ctx, ctxPath, bound, _ => do
    let st ← resolveStep ctx ctxPath bound key
    resolveLoop rest st.1 st.2.1 st.2.2.1 st.2.2.2

/-- `BNGGdiff._get_node_from_names` on a document given by its top-level
node list, for a non-empty name path (with an empty path the source
returns the root container itself; the call sites below handle that case
separately).  After the loop, the `found` flag of the last iteration
decides between the bound node and `None`. -/
def resolveNames (ns : List GNode) (names : List String) :
    Except String (Option (List Nat × GNode)) :=
  match names with
  | [] => .ok none
  | _ :: _ => do
    let r ← resolveLoop names ns [] none false
    match r with
    | (true, some x) => .ok (some x)
    | (true, none) => .ok none
    | (false, _) => .ok none

/-! ## Label paths (specification-side observation)

The spec's cross-document identity key is the label path (§3).  A label
path is resolved by first-match descent, mirroring how unique sibling
labels identify a node. -/

/-- First-match node (and its index path) at a label path. -/
def findPathLoc : List GNode → List String → Option (List Nat × GNode)
  | _, [] => none
  | ns, [k] => (findIdxWithLabel ns k 0).map (fun p => ([p.1], p.2))
  | ns, k :: k2 :: rest =>
    match findIdxWithLabel ns k 0 with
    | some (i, n) => (findPathLoc n.sub (k2 :: rest)).map (fun p => (i :: p.1, p.2))
    | none => none

/-- First-match node at a label path. -/
def findPathN (ns : List GNode) (p : List String) : Option GNode :=
  (findPathLoc ns p).map (fun q => q.2)

/-! ## The diff painting loop of `BNGGdiff._find_diff` (lines 272-339)

The Python loop advances over `g1` and the deep copy `dg` in lockstep,
so painting a node of `dg` reads and writes the node at the same
position; each non-root node is visited exactly once and its paint
decision depends only on its own (still original) fill color and the
resolution of its name path against `g2`.  We therefore embed the loop
as a recursion over the tree that produces the painted copy directly. -/

/-- Paint decision for one visited node with name path `names`: resolve
against `g2`, then color with the intersect or the g1 slot of the
palette, indexed by the node's color class. -/
def paintColorOf (g2 : List GNode) (cols : Palette) (names : List String)
    (n : GNode) : Except String String := do
  let g2res ← resolveNames g2 names
  let cid ← getColorId n
  match g2res with
  | some (_, m) =>
    -- the name of the resolved node versus the current name
    if m.label = n.label then pyIndex cols.intersect cid
    else pyIndex cols.g1 cid
  | none => pyIndex cols.g1 cid

def paintForest (g2 : List GNode) (cols : Palette) :
    Nat → List String → List GNode → Except String (List GNode)
  | 0, _, _ => .error "RecursionError"
  | _ + 1, _, [] => .ok []
  | fuel + 1, pfx, GNode.mk i l c f sub :: ns => do
    let col ← paintColorOf g2 cols (pfx ++ [l]) (GNode.mk i l c f sub)
    let sub' ← paintForest g2 cols fuel (pfx ++ [l]) sub
    let ns' ← paintForest g2 cols fuel pfx ns
    .ok (GNode.mk i l col f sub' :: ns')

/-- The identity entries `rename_map[id] = id` that `_find_diff` records
for every visited node of `g1` (the entry for the root, whose `@id` is
`None`, is never consulted by the string-keyed edge remapping and is not
modelled). -/
def identRmapF : Nat → List GNode → RMap
  | 0, _ => []
  | _ + 1, [] => []
  | fuel + 1, n :: ns => (n.id, n.id) :: (identRmapF fuel n.sub ++ identRmapF fuel ns)

/-- `BNGGdiff._resize_fonts`: the walk applies `_resize_node_font(node,
add_to_font)` to every non-root node, which sets `@fontSize` to
`str(add_to_font)`. -/
def resizeForest : Nat → Nat → List GNode → List GNode
  | 0, _, _ => []
  | _ + 1, _, [] => []
  | fuel + 1, size, GNode.mk i l c _ sub :: ns =>
    GNode.mk i l c (toString size) (resizeForest fuel size sub) :: resizeForest fuel size ns

def resizeFonts (fuel : Nat) (g : TopGraph) (addToFont : Nat) : TopGraph :=
  { nodes := resizeForest fuel addToFont g.nodes, edges := g.edges }

/-- `BNGGdiff._recolor_graph`: deep copy, then recolor every non-root
node with `color_list[_get_color_id(node)]`. -/
def recolorForest : Nat → List String → List GNode → Except String (List GNode)
  | 0, _, _ => .error "RecursionError"
  | _ + 1, _, [] => .ok []
  | fuel + 1, colorList, GNode.mk i l c f sub :: ns => do
    let cid ← getColorId (GNode.mk i l c f sub)
    let col ← pyIndex colorList cid
    let sub' ← recolorForest fuel colorList sub
    let ns' ← recolorForest fuel colorList ns
    .ok (GNode.mk i l col f sub' :: ns')

def recolorGraph (fuel : Nat) (g : TopGraph) (colorList : List String) :
    Except String TopGraph :=
  (recolorForest fuel colorList g.nodes).map (fun ns => { nodes := ns, edges := g.edges })

/-- `BNGGdiff._find_diff(g1, g2, colors=cols)` with `dg=None`, acting on
an engine state whose `gdict_1` / `gdict_2` are, in an actual
`BNGGdiff.run()`, the very objects passed as `g1` / `g2`.  After the
painting loop the method recolors copies of both parsed inputs with the
fixed instance palette and then mutates the fonts of both parsed inputs
and of `dg` in place (lines 340-346). -/
def findDiffE (fuel : Nat) (st : Engine) (g1 g2 : TopGraph) (cols : Palette) :
    Except String (Engine × TopGraph × RMap) := do
  let painted ← paintForest g2.nodes cols fuel [] g1.nodes
  let rmap := identRmapF fuel g1.nodes
  let rc1 ← recolorGraph fuel st.gdict1 instColors.g1
  let rc2 ← recolorGraph fuel st.gdict2 instColors.g2
  let st' : Engine :=
    { gdict1 := resizeFonts fuel st.gdict1 20
      gdict2 := resizeFonts fuel st.gdict2 20
      recolor1 := some rc1
      recolor2 := some rc2 }
  .ok (st', resizeFonts fuel { nodes := painted, edges := g1.edges } 20, rmap)

/-! ## Node insertion: `BNGGdiff._add_node_to_graph` (lines 581-662) -/

/-- Update the node at an index path inside a forest. -/
def updateAt1 : List GNode → Nat → (GNode → GNode) → List GNode
  | [], _, _ => []
  | n :: ns, 0, f => f n :: ns
  | n :: ns, i + 1, f => n :: updateAt1 ns i f

def updateAtIdx : List Nat → (GNode → GNode) → List GNode → List GNode
  | [], _, ns => ns
  | [i], f, ns => updateAt1 ns i f
  | i :: j :: loc, f, ns =>
    updateAt1 ns i (fun n =>
      match n with
      | GNode.mk a l c ft sub => GNode.mk a l c ft (updateAtIdx (j :: loc) f sub))

/-- Stack entries for the walks over a node's children: index path,
name path and a snapshot of the child, in sibling order (the Python code
appends them in order and pops from the end). -/
def stackEntries (loc : List Nat) (names : List String) :
    Nat → List GNode → List (List Nat × List String × GNode)
  | _, [] => []
  | i, c :: cs => (loc ++ [i], names ++ [c.label], c) :: stackEntries loc names (i + 1) cs

/-- The id allocation of the list branch (lines 588-595): parse every
sibling id, take the last one, increment its final segment. -/
def allocateSiblingId (siblings : List GNode) : Except String String := do
  let node_lists ← mapIds (siblings.map GNode.id)
  let lastList ← pyLastE node_lists
  let new_id ← pyIncLast lastList
  .ok (getIdStr new_id)
where
  mapIds : List String → Except String (List (List Nat))
    | [] => .ok []
    | s :: rest => do
      let l ← getIdList s
      let ls ← mapIds rest
      .ok (l :: ls)

/-- The renaming / recoloring walk over the copied subtree
(lines 619-661).  The stack holds (index path into the copied node,
name path relative to the copied node, snapshot); each popped descendant
is recolored with the g2 palette slot and re-identified as
`parent_id ++ [its original last segment]`, where the parent is looked
up by name path on the current (partially renamed) copied tree. -/
def innerRenameLoop (cols : Palette) :
    Nat → List (List Nat × List String × GNode) → GNode → RMap →
    Except String (GNode × RMap)
  | 0, _, _, _ => .error "RecursionError"
  | _ + 1, [], t, rmap => .ok (t, rmap)
  | fuel + 1, (loc, names, snap) :: stack, t, rmap => do
    let parent ←
      match names.dropLast with
      | [] => Except.ok t
      | k :: ks => do
        match (← resolveLoop (k :: ks) t.sub [] none false) with
        | (true, some (_, p)) => Except.ok p
        | _ => Except.error "TypeError: argument of type NoneType is not iterable"
    let cid ← getColorId snap
    let col ← pyIndex cols.g2 cid
    let pIdL ← getIdList parent.id
    let cIdL ← getIdList snap.id
    let lastSeg ← pyLastE cIdL
    let newIdS := getIdStr (pIdL ++ [lastSeg])
    let t' :=
      match t with
      | GNode.mk i l c f sub =>
        GNode.mk i l c f (updateAtIdx loc
          (fun n =>
            match n with
            | GNode.mk _ nl _ nf nsub => GNode.mk newIdS nl col nf nsub) sub)
    let rmap' := rinsert rmap (getIdStr cIdL) newIdS
    innerRenameLoop cols fuel ((stackEntries loc names 0 snap.sub).reverse ++ stack) t' rmap'

/-- The single/list insertion into a children list (lines 587-610) plus
the rename-map entry (line 612) and the subtree walk (615-661), with the
in-place mutation of the appended copy realized by substituting the
walked copy for the last list entry.  Returns the updated children list
and rename map. -/
def addChild (fuel : Nat) (node copied : GNode) (children : List GNode)
    (cols : Palette) (rmap : RMap) : Except String (List GNode × RMap) := do
  let (children1, copied1) ←
    match children with
    | [onlyChild] => do
      -- xmltodict dict case: turn the single node into a two-element list
      let ogIdL ← getIdList onlyChild.id
      let newIdL ← pyIncLast ogIdL
      let c1 := setNodeId copied (getIdStr newIdL)
      Except.ok ([onlyChild, c1], c1)
    | _ => do
      let newIdS ← allocateSiblingId children
      let c1 := setNodeId copied newIdS
      Except.ok (children ++ [c1], c1)
  let rmap1 := rinsert rmap node.id copied1.id
  if copied1.sub.isEmpty then .ok (children1, rmap1)
  else do
    let (c2, rmap2) ← innerRenameLoop cols fuel
      ((stackEntries [] [] 0 copied1.sub).reverse) copied1 rmap1
    .ok (children1.dropLast ++ [c2], rmap2)

/-- The parent lookup of line 582: the marker `none` stands for the
root container (an empty `names[:-1]`), `some none` models Python's
`None`, and `some (some p)` a found node with its position. -/
def resolveParent (dg : TopGraph) (names : List String) :
    Except String (Option (Option (List Nat × GNode))) :=
  match names.dropLast with
  | [] => .ok none
  | k :: ks => do
    match (← resolveLoop (k :: ks) dg.nodes [] none false) with
    | (true, some (loc, p)) => Except.ok (some (some (loc, p)))
    | _ => Except.ok (some none)

/-- The attachment step of `_add_node_to_graph` (lines 586-661) for a
resolved parent: the root container always carries the top-level node
list; a parent without a nested graph element silently skips the
insertion (the guard at line 586 has no `else` branch); Python's `None`
raises when its keys are consulted. -/
def attachCopied (fuel : Nat) (node copied : GNode)
    (pr : Option (Option (List Nat × GNode))) (dg : TopGraph)
    (cols : Palette) (rmap : RMap) : Except String (TopGraph × RMap) :=
  match pr with
  | none => do
    let (children', rmap') ← addChild fuel node copied dg.nodes cols rmap
    .ok ({ nodes := children', edges := dg.edges }, rmap')
  | some none => .error "AttributeError: NoneType object has no attribute keys"
  | some (some (loc, p)) =>
    if p.sub.isEmpty then .ok (dg, rmap)
    else do
      let (children', rmap') ← addChild fuel node copied p.sub cols rmap
      .ok ({ nodes := updateAtIdx loc
               (fun n =>
                 match n with
                 | GNode.mk a l c ft _ => GNode.mk a l c ft children') dg.nodes
             edges := dg.edges }, rmap')

/-- `BNGGdiff._add_node_to_graph(node, dg, names, colors, rmap)`.  The
parent is resolved at `names[:-1]`, the copied node is recolored with
the g2 slot, then attached. -/
def addNodeToGraph (fuel : Nat) (node : GNode) (dg : TopGraph)
    (names : List String) (cols : Palette) (rmap : RMap) :
    Except String (TopGraph × RMap) := do
  let pr ← resolveParent dg names
  let cid ← getColorId node
  let col ← pyIndex cols.g2 cid
  attachCopied fuel node (colorNode node col) pr dg cols rmap

/-! ## Union merge: `BNGGdiff._find_diff_union` (lines 140-251) -/

/-- One popped node of the union node phase (lines 188-204): when the
node resolves in `g1` or already in the merged document only the rename
map is extended, otherwise the node is inserted. -/
def unionStep (fuel : Nat) (cols : Palette) (snap : GNode) (names : List String)
    (dn : Option (List Nat × GNode)) (dg : TopGraph) (rmap : RMap) :
    Except String (TopGraph × RMap) :=
  match dn with
  | none => do
    let dgnode ← resolveNames dg.nodes names
    match dgnode with
    | none => addNodeToGraph fuel snap dg names cols rmap
    | some (_, dgn) => Except.ok (dg, rinsert rmap snap.id dgn.id)
  | some (_, dn') => Except.ok (dg, rinsert rmap snap.id dn'.id)

/-- The node phase (lines 184-223): walk `g2` with an explicit stack; a
node absent from `g1` and from the evolving merged document is inserted,
otherwise only the rename map is extended. -/
def unionLoop (cols : Palette) (g1nodes : List GNode) :
    Nat → List (List Nat × List String × GNode) → TopGraph → RMap →
    Except String (TopGraph × RMap)
  | 0, _, _, _ => .error "RecursionError"
  | _ + 1, [], dg, rmap => .ok (dg, rmap)
  | fuel + 1, (loc, names, snap) :: stack, dg, rmap => do
    let dnode ← resolveNames g1nodes names
    let (dg1, rmap1) ← unionStep fuel cols snap names dnode dg rmap
    unionLoop cols g1nodes fuel
      ((stackEntries loc names 0 snap.sub).reverse ++ stack) dg1 rmap1

/-- The edge phase (lines 225-249): remap both endpoints of every `g2`
top-level edge through the rename map, skip when an edge with the same
endpoint pair (in either direction) is already present, otherwise append
with the next sequential edge id. -/
def edgeLoop (rmap : RMap) : List Edge → List Edge → Nat → Except String (List Edge)
  | acc, [], _ => .ok acc
  | acc, e :: rest, ctr => do
    let s ← rlookupE rmap e.source
    let t ← rlookupE rmap e.target
    if acc.any (fun d => (d.source = s ∧ d.target = t) ∨ (d.target = s ∧ d.source = t)) then
      edgeLoop rmap acc rest ctr
    else
      edgeLoop rmap (acc ++ [{ id := "e" ++ toString ctr, source := s, target := t }]) rest (ctr + 1)

/-- `BNGGdiff._find_diff_union(g1, g2, colors=cols)`: first the regular
diff (with its engine side effects), then the union node phase seeded
with the children of the `g2` root, then the edge phase starting from
the merged document's current edge count. -/
def findDiffUnionE (fuel : Nat) (st : Engine) (g1 g2 : TopGraph) (cols : Palette) :
    Except String (Engine × TopGraph × RMap) := do
  let (st', dg0, rmap0) ← findDiffE fuel st g1 g2 cols
  let (dg1, rmap1) ← unionLoop cols g1.nodes fuel
    ((stackEntries [] [] 0 g2.nodes).reverse) dg0 rmap0
  let edges' ← edgeLoop rmap1 dg1.edges g2.edges dg1.edges.length
  .ok (st', { nodes := dg1.nodes, edges := edges' }, rmap1)

/-- The matrix mode of `BNGGdiff.diff_graphs` as invoked by
`BNGGdiff.run()` (where the `g1` / `g2` arguments alias `self.gdict_1` /
`self.gdict_2`): the forward diff, then the reverse diff with the g1 and
g2 palette slots swapped, both acting on the same engine state. -/
def diffGraphsMatrixE (fuel : Nat) (st : Engine) (cols : Palette) :
    Except String (Engine × TopGraph × TopGraph) := do
  let (st1, dg1, _) ← findDiffE fuel st st.gdict1 st.gdict2 cols
  let (st2, dg2, _) ← findDiffE fuel st1 st1.gdict2 st1.gdict1
    { g1 := cols.g2, g2 := cols.g1, intersect := cols.intersect }
  .ok (st2, dg1, dg2)

/-! ## Specification-side observations -/

/-- All nodes of a forest in preorder. -/
def flattenF : Nat → List GNode → List GNode
  | 0, _ => []
  | _ + 1, [] => []
  | fuel + 1, n :: ns => n :: (flattenF fuel n.sub ++ flattenF fuel ns)

/-- Sibling labels are unique at every level (spec §3, §9).  At fuel 0
the certificate is `false`, so `uniqF fuel ns = true` also witnesses
that `fuel` covers the whole forest. -/
def uniqF : Nat → List GNode → Bool
  | 0, _ => false
  | _ + 1, [] => true
  | fuel + 1, n :: ns =>
    ns.all (fun m => m.label != n.label) && uniqF fuel n.sub && uniqF fuel ns

/-- Every node's fill color is one of the three recognized
classification colors (spec §3). -/
def classifiableF : Nat → List GNode → Bool
  | 0, _ => false
  | _ + 1, [] => true
  | fuel + 1, n :: ns =>
    (getColorId n).isOk && classifiableF fuel n.sub && classifiableF fuel ns

/-- Two edges carry the same unordered endpoint pair. -/
def sameUnorderedPair (e1 e2 : Edge) : Prop :=
  (e1.source = e2.source ∧ e1.target = e2.target) ∨
  (e1.source = e2.target ∧ e1.target = e2.source)

/-- Canonical identifier segment: the letter `n` followed by decimal
digits with no leading zeros. -/
def canonicalSeg : List Char → Bool
  | [] => false
  | c :: ds =>
    c == 'n' && !ds.isEmpty && ds.all Char.isDigit && (!(ds.head? == some '0') || ds.length == 1)

/-- Canonical identifier string: non-empty canonical segments joined by
`"::"`. -/
def canonicalStr (s : String) : Bool :=
  (split2 s.data).all canonicalSeg

/-! ## Claim C1: union-mode merge as a superset of both inputs -/

def c1A : GNode := GNode.mk "n0" "A" "#D2D2D2" "12" []

def c1B : GNode := GNode.mk "n0::n0" "B" "#FFCC00" "12" []

def c1A2 : GNode := GNode.mk "n0" "A" "#D2D2D2" "12" [c1B]

def c1G1 : TopGraph := { nodes := [c1A], edges := [] }

def c1G2 : TopGraph := { nodes := [c1A2], edges := [] }

def c1St : Engine := { gdict1 := c1G1, gdict2 := c1G2, recolor1 := none, recolor2 := none }

/-- Claim C1 (code bug): the union-mode merge is claimed to return a
superset of both inputs — one node for every label path of `g1` or
`g2`.  On `g1` = a single leaf node `A` and `g2` = the same node `A`
with a child `B`, both well-formed with unique sibling labels, the merge
succeeds but its output contains no node at the label path `A / B`,
although `g2` does: `_add_node_to_graph` silently skips the insertion
when the resolved parent has no nested graph element (the guard at
line 586 has no `else` branch), contradicting the documented superset
guarantee of the merger. -/
theorem c1_union_drops_g2_node :
    (findPathN c1G2.nodes ["A", "B"]).isSome = true ∧
    (findDiffUnionE 20 c1St c1G1 c1G2 instColors).toOption.map
      (fun r => (findPathN r.2.1.nodes ["A", "B"]).isSome) = some false := by
  exact ⟨rfl, rfl⟩

/-! ## Claim C6: the font pass sets instead of adding -/

def c6node : GNode := GNode.mk "n0" "A" "#D2D2D2" "12" []

/-- Claim C6 (code bug): the cosmetic font pass is claimed to set every
label's font size to its current value plus the delta, so a node with
font size 12 should report 32 after a pass with delta 20.
`_resize_node_font` instead assigns `str(size)` directly, so the node
reports 20 — contradicting the call-site comment "resize all fonts,
this adds +20" and the parameter name `add_to_font`. -/
theorem c6_resize_sets_font_instead_of_adding :
    getFontSize c6node = .ok 12 ∧
    getFontSize (resizeNodeFont c6node 20) = .ok 20 ∧
    ((resizeForest 5 20 [c6node]).map GNode.fontSize = ["20"]) ∧
    getFontSize (resizeNodeFont c6node 20) ≠ .ok 32 := by
  refine ⟨rfl, rfl, rfl, ?_⟩
  intro h
  exact absurd (Except.ok.injEq (α := Nat) (ε := String) 20 32 ▸ h) (by simp)

/-! ## Claim C9: color classification -/

/-- Claim C9: deriving the color class succeeds — with class 0 for
`#D2D2D2` (species), 1 for `#FFFFFF` (component), 2 for `#FFCC00`
(state) — if and only if the node's fill color is one of those three hex
values; any other fill color makes `_get_color_id` raise, so the
classification step produces no result at all. -/
theorem c9_color_classification (n : GNode) :
    ((∃ c, getColorId n = .ok c) ↔
      (n.color = "#D2D2D2" ∨ n.color = "#FFFFFF" ∨ n.color = "#FFCC00")) ∧
    (n.color = "#D2D2D2" → getColorId n = .ok 0) ∧
    (n.color = "#FFFFFF" → getColorId n = .ok 1) ∧
    (n.color = "#FFCC00" → getColorId n = .ok 2) ∧
    (¬(n.color = "#D2D2D2" ∨ n.color = "#FFFFFF" ∨ n.color = "#FFCC00") →
      ∃ msg, getColorId n = .error msg) := by
  by_cases h1 : n.color = "#D2D2D2"
  · refine ⟨⟨fun _ => Or.inl h1, fun _ => ⟨0, by simp [getColorId, h1]⟩⟩, ?_, ?_, ?_, ?_⟩ <;>
      simp [getColorId, h1]
  · by_cases h2 : n.color = "#FFFFFF"
    · refine ⟨⟨fun _ => Or.inr (Or.inl h2), fun _ => ⟨1, by simp [getColorId, h1, h2]⟩⟩,
        ?_, ?_, ?_, ?_⟩ <;> simp [getColorId, h1, h2]
    · by_cases h3 : n.color = "#FFCC00"
      · refine ⟨⟨fun _ => Or.inr (Or.inr h3), fun _ => ⟨2, by simp [getColorId, h1, h2, h3]⟩⟩,
          ?_, ?_, ?_, ?_⟩ <;> simp [getColorId, h1, h2, h3]
      · refine ⟨⟨?_, ?_⟩, ?_, ?_, ?_, ?_⟩ <;> simp [getColorId, h1, h2, h3]

/-- Witness for C9 at concrete nodes: a recognized color classifies as
its class, an unrecognized color raises. -/
theorem c9_color_classification_witness :
    getColorId (GNode.mk "n0" "A" "#D2D2D2" "12" []) = .ok 0 ∧
    (∃ msg, getColorId (GNode.mk "n0" "A" "#123456" "12" []) = .error msg) := by
  refine ⟨(c9_color_classification (GNode.mk "n0" "A" "#D2D2D2" "12" [])).2.1 rfl, ?_⟩
  exact (c9_color_classification (GNode.mk "n0" "A" "#123456" "12" [])).2.2.2.2 (by decide)

/-! ## Splitting and joining identifier strings -/

theorem split2_ne_nil : ∀ cs : List Char, split2 cs ≠ [] := by
  intro cs
  induction cs using split2.induct with
  | case1 => simp [split2]
  | case2 c => simp [split2]
  | case3 c1 c2 rest h ih => simp [split2, h]
  | case4 c1 c2 rest h hnil ih => exact absurd hnil ih
  | case5 c1 c2 rest h seg segs hs ih => simp [split2, if_neg h, hs]

theorem join2_cons_cons (c : Char) (seg : List Char) (segs : List (List Char)) :
    join2 ((c :: seg) :: segs) = c :: join2 (seg :: segs) := by
  cases segs <;> simp [join2]

theorem join2_split2 : ∀ cs : List Char, join2 (split2 cs) = cs := by
  intro cs
  induction cs using split2.induct with
  | case1 => simp [split2, join2]
  | case2 c => simp [split2, join2]
  | case3 c1 c2 rest h ih =>
    obtain ⟨h1, h2⟩ := h
    subst h1 h2
    simp only [split2, if_pos (And.intro rfl rfl)]
    cases hs : split2 rest with
    | nil => exact absurd hs (split2_ne_nil rest)
    | cons seg segs =>
      rw [hs] at ih
      simp [join2, ih]
  | case4 c1 c2 rest h hnil ih => exact absurd hnil (split2_ne_nil _)
  | case5 c1 c2 rest h seg segs hs ih =>
    rw [hs] at ih
    simp only [split2, if_neg h, hs, join2_cons_cons, ih]

theorem split2_sep_free : ∀ (seg rest : List Char), (∀ c ∈ seg, c ≠ ':') →
    split2 (seg ++ ':' :: ':' :: rest) = seg :: split2 rest := by
  intro seg
  induction seg with
  | nil => intro rest _; simp [split2]
  | cons c seg' ih =>
    intro rest hfree
    have hc : c ≠ ':' := hfree c (by simp)
    have hfree' : ∀ x ∈ seg', x ≠ ':' := fun x hx => hfree x (by simp [hx])
    cases seg' with
    | nil =>
      have : split2 (':' :: ':' :: rest) = [] :: split2 rest := by
        simp [split2]
      simp only [List.nil_append, List.cons_append, split2, this]
      simp [hc]
    | cons d seg'' =>
      have hrec := ih rest hfree'
      simp only [List.cons_append] at hrec ⊢
      simp only [split2, hrec]
      simp [hc]

theorem split2_free_single : ∀ seg : List Char, (∀ c ∈ seg, c ≠ ':') →
    split2 seg = [seg] := by
  intro seg
  induction seg with
  | nil => intro _; simp [split2]
  | cons c seg' ih =>
    intro hfree
    have hc : c ≠ ':' := hfree c (by simp)
    have hfree' : ∀ x ∈ seg', x ≠ ':' := fun x hx => hfree x (by simp [hx])
    cases seg' with
    | nil => simp [split2]
    | cons d seg'' =>
      have hrec := ih hfree'
      simp only [split2, hrec]
      simp [hc]

theorem split2_join2_free : ∀ segs : List (List Char), segs ≠ [] →
    (∀ seg ∈ segs, ∀ c ∈ seg, c ≠ ':') → split2 (join2 segs) = segs := by
  intro segs
  induction segs with
  | nil => intro h _; exact absurd rfl h
  | cons seg rest ih =>
    intro _ hfree
    cases rest with
    | nil =>
      simp only [join2]
      exact split2_free_single seg (hfree seg (by simp))
    | cons s2 rest' =>
      have h1 : split2 (seg ++ ':' :: ':' :: join2 (s2 :: rest')) =
          seg :: split2 (join2 (s2 :: rest')) :=
        split2_sep_free seg _ (hfree seg (by simp))
      have h2 : split2 (join2 (s2 :: rest')) = s2 :: rest' :=
        ih (by simp) (fun s hs c hc => hfree s (by simp [hs]) c hc)
      simp only [join2, h1, h2]

/-! ## Decimal digit strings -/

theorem digit_facts : ∀ d : Nat, d < 10 →
    (digitChar d).isDigit = true ∧ digitVal (digitChar d) = d ∧
    digitChar d ≠ ':' ∧ (digitChar d = '0' ↔ d = 0) := by decide

theorem isDigit_bounds {c : Char} (h : c.isDigit = true) :
    48 ≤ c.toNat ∧ c.toNat ≤ 57 := by
  simp only [Char.isDigit, Bool.and_eq_true, decide_eq_true_eq, ge_iff_le] at h
  obtain ⟨h1, h2⟩ := h
  exact ⟨UInt32.le_toNat_of_le (by norm_num [UInt32.size]) h1,
         UInt32.toNat_le_of_le (by norm_num [UInt32.size]) h2⟩

theorem digitChar_digitVal {c : Char} (h : c.isDigit = true) :
    digitChar (digitVal c) = c := by
  obtain ⟨h1, _⟩ := isDigit_bounds h
  have : 48 + (c.toNat - 48) = c.toNat := by omega
  simp only [digitChar, digitVal, this, Char.ofNat_toNat]

theorem digitVal_lt {c : Char} (h : c.isDigit = true) : digitVal c < 10 := by
  obtain ⟨_, h2⟩ := isDigit_bounds h
  simp only [digitVal]
  omega

theorem digitVal_pos {c : Char} (h : c.isDigit = true) (h0 : c ≠ '0') :
    1 ≤ digitVal c := by
  obtain ⟨h1, _⟩ := isDigit_bounds h
  have : c.toNat ≠ 48 := by
    intro heq
    exact h0 (by rw [← Char.ofNat_toNat c, heq])
  simp only [digitVal]
  omega

theorem natToCharsAux_congr : ∀ (n f1 f2 : Nat), n < f1 → n < f2 →
    natToCharsAux f1 n = natToCharsAux f2 n := by
  intro n
  induction n using Nat.strong_induction_on with
  | _ n ih =>
    intro f1 f2 h1 h2
    match f1, h1 with
    | f1 + 1, h1 =>
    match f2, h2 with
    | f2 + 1, h2 =>
    simp only [natToCharsAux]
    by_cases h10 : n < 10
    · simp [h10]
    · simp only [h10, if_false]
      have hd : n / 10 < n := Nat.div_lt_self (by omega) (by omega)
      rw [ih (n / 10) hd f1 f2 (by omega) (by omega)]

theorem natToChars_lt {n : Nat} (h : n < 10) : natToChars n = [digitChar n] := by
  simp [natToChars, natToCharsAux, h]

theorem natToChars_ge {n : Nat} (h : 10 ≤ n) :
    natToChars n = natToChars (n / 10) ++ [digitChar (n % 10)] := by
  have hd : n / 10 < n := Nat.div_lt_self (by omega) (by omega)
  have hL : natToCharsAux (n + 1) n = natToCharsAux n (n / 10) ++ [digitChar (n % 10)] := by
    simp [natToCharsAux, Nat.not_lt.mpr h]
  show natToCharsAux (n + 1) n = natToCharsAux (n / 10 + 1) (n / 10) ++ [digitChar (n % 10)]
  rw [hL, natToCharsAux_congr (n / 10) n (n / 10 + 1) hd (by omega)]

theorem natToChars_spec : ∀ n : Nat, (natToChars n).all Char.isDigit = true ∧
    natToChars n ≠ [] ∧ (∀ c ∈ natToChars n, c ≠ ':') ∧
    (0 < n → (natToChars n).head? ≠ some '0') := by
  intro n
  induction n using Nat.strong_induction_on with
  | _ n ih =>
    by_cases h10 : n < 10
    · rw [natToChars_lt h10]
      obtain ⟨hd, hv, hne, h0⟩ := digit_facts n h10
      refine ⟨by simp [hd], by simp, by simp [hne], ?_⟩
      intro hn hc
      simp only [List.head?_cons, Option.some.injEq] at hc
      exact absurd (h0.mp hc) (by omega)
    · have h10' : 10 ≤ n := by omega
      rw [natToChars_ge h10']
      have hd : n / 10 < n := Nat.div_lt_self (by omega) (by omega)
      obtain ⟨ih1, ih2, ih3, ih4⟩ := ih (n / 10) hd
      obtain ⟨hd', hv', hne', _⟩ := digit_facts (n % 10) (Nat.mod_lt n (by omega))
      refine ⟨?_, by simp, ?_, ?_⟩
      · simp only [List.all_append, ih1, Bool.true_and, List.all_cons, hd', List.all_nil,
          Bool.and_true]
      · intro c hc
        rcases List.mem_append.mp hc with h | h
        · exact ih3 c h
        · simp only [List.mem_singleton] at h
          exact h ▸ hne'
      · intro _
        have hpos : 0 < n / 10 := Nat.div_pos h10' (by omega)
        cases hcs : natToChars (n / 10) with
        | nil => exact absurd hcs ih2
        | cons a as =>
          rw [hcs] at ih4
          simpa using ih4 hpos

theorem parseVal_append (ds : List Char) (c : Char) :
    parseVal (ds ++ [c]) = 10 * parseVal ds + digitVal c := by
  simp [parseVal, List.foldl_append]

theorem parseVal_natToChars : ∀ n : Nat, parseVal (natToChars n) = n := by
  intro n
  induction n using Nat.strong_induction_on with
  | _ n ih =>
    by_cases h10 : n < 10
    · rw [natToChars_lt h10]
      obtain ⟨_, hv, _, _⟩ := digit_facts n h10
      simp [parseVal, hv]
    · have h10' : 10 ≤ n := by omega
      rw [natToChars_ge h10', parseVal_append]
      have hd : n / 10 < n := Nat.div_lt_self (by omega) (by omega)
      rw [ih (n / 10) hd]
      obtain ⟨_, hv, _, _⟩ := digit_facts (n % 10) (Nat.mod_lt n (by omega))
      rw [hv]
      omega

theorem pyNat?_natToChars (n : Nat) : pyNat? (natToChars n) = some n := by
  obtain ⟨h1, h2, _, _⟩ := natToChars_spec n
  simp [pyNat?, h1, h2, parseVal_natToChars, List.isEmpty_iff]

theorem parseVal_acc_le : ∀ (ds : List Char) (a : Nat),
    a ≤ List.foldl (fun a c => 10 * a + digitVal c) a ds := by
  intro ds
  induction ds with
  | nil => intro a; simp
  | cons c rest ih =>
    intro a
    calc a ≤ 10 * a + digitVal c := by omega
    _ ≤ _ := ih _

theorem parseVal_pos {ds : List Char} (hne : ds ≠ [])
    (hdig : ds.all Char.isDigit = true) (h0 : ds.head? ≠ some '0') :
    1 ≤ parseVal ds := by
  cases ds with
  | nil => exact absurd rfl hne
  | cons c rest =>
    have hc : c.isDigit = true := by
      simp only [List.all_cons, Bool.and_eq_true] at hdig
      exact hdig.1
    have hc0 : c ≠ '0' := by
      intro h
      exact h0 (by simp [h])
    have h1 : 1 ≤ digitVal c := digitVal_pos hc hc0
    simp only [parseVal, List.foldl_cons]
    calc 1 ≤ 10 * 0 + digitVal c := by omega
    _ ≤ _ := parseVal_acc_le rest _

theorem natToChars_parseVal : ∀ ds : List Char, ds ≠ [] →
    ds.all Char.isDigit = true → (ds.head? ≠ some '0' ∨ ds.length = 1) →
    natToChars (parseVal ds) = ds := by
  intro ds
  induction ds using List.reverseRecOn with
  | nil => intro h _ _; exact absurd rfl h
  | append_singleton ds' c ih =>
    intro _ hdig hlead
    have hc : c.isDigit = true := by
      simp only [List.all_append, List.all_cons, List.all_nil, Bool.and_eq_true] at hdig
      exact hdig.2.1
    cases ds' with
    | nil =>
      have : parseVal [c] = digitVal c := by simp [parseVal]
      simp only [List.nil_append, this]
      rw [natToChars_lt (digitVal_lt hc), digitChar_digitVal hc]
    | cons d ds'' =>
      have hne' : (d :: ds'') ≠ [] := by simp
      have hdig' : (d :: ds'').all Char.isDigit = true := by
        simp only [List.all_append, Bool.and_eq_true] at hdig
        exact hdig.1
      have hlen : ((d :: ds'') ++ [c]).length = ds''.length + 2 := by simp
      have hlead' : (d :: ds'').head? ≠ some '0' := by
        rcases hlead with h | h
        · simpa using h
        · rw [hlen] at h; omega
      have hpos : 1 ≤ parseVal (d :: ds'') := parseVal_pos hne' hdig' hlead'
      have hml : parseVal ((d :: ds'') ++ [c]) = 10 * parseVal (d :: ds'') + digitVal c :=
        parseVal_append _ _
      have hvd : digitVal c < 10 := digitVal_lt hc
      rw [hml, natToChars_ge (by omega)]
      have hdiv : (10 * parseVal (d :: ds'') + digitVal c) / 10 = parseVal (d :: ds'') := by
        omega
      have hmod : (10 * parseVal (d :: ds'') + digitVal c) % 10 = digitVal c := by
        omega
      rw [hdiv, hmod, digitChar_digitVal hc, ih hne' hdig' (Or.inl hlead')]

/-! ## Claim C10: identifier parsing and rendering -/

theorem mapSegs_render : ∀ l : List Nat,
    getIdList.mapSegs (l.map (fun i => 'n' :: natToChars i)) = .ok l := by
  intro l
  induction l with
  | nil => simp [getIdList.mapSegs]
  | cons i rest ih =>
    simp only [List.map_cons, getIdList.mapSegs, List.drop_succ_cons, List.drop_zero,
      pyNat?_natToChars, ih]
    rfl

theorem getIdList_getIdStr : ∀ l : List Nat, l ≠ [] →
    getIdList (getIdStr l) = .ok l := by
  intro l hl
  have hfree : ∀ seg ∈ l.map (fun i => 'n' :: natToChars i), ∀ c ∈ seg, c ≠ ':' := by
    intro seg hseg c hc
    obtain ⟨i, _, rfl⟩ := List.mem_map.mp hseg
    rcases List.mem_cons.mp hc with h | h
    · subst h; decide
    · exact (natToChars_spec i).2.2.1 c h
  have hne : l.map (fun i => 'n' :: natToChars i) ≠ [] := by
    simpa using hl
  show getIdList.mapSegs (split2 (getIdStr l).data) = _
  have : (getIdStr l).data = join2 (l.map (fun i => 'n' :: natToChars i)) := rfl
  rw [this, split2_join2_free _ hne hfree]
  exact mapSegs_render l

theorem canonicalSeg_parts {seg : List Char} (h : canonicalSeg seg = true) :
    ∃ ds, seg = 'n' :: ds ∧ ds ≠ [] ∧ ds.all Char.isDigit = true ∧
      (ds.head? ≠ some '0' ∨ ds.length = 1) := by
  cases seg with
  | nil => simp [canonicalSeg] at h
  | cons c ds =>
    simp only [canonicalSeg, Bool.and_eq_true, beq_iff_eq, Bool.or_eq_true,
      Bool.not_eq_true', beq_eq_false_iff_ne, ne_eq, Nat.beq_eq_true_eq] at h
    obtain ⟨⟨⟨hcn, hne⟩, hdig⟩, hlead⟩ := h
    subst hcn
    refine ⟨ds, rfl, by simpa [List.isEmpty_iff] using hne, hdig, ?_⟩
    rcases hlead with h | h
    · exact Or.inl h
    · exact Or.inr h

theorem mapSegs_canonical : ∀ segs : List (List Char),
    segs.all canonicalSeg = true →
    getIdList.mapSegs segs = .ok (segs.map (fun seg => parseVal (seg.drop 1))) ∧
    segs.map (fun seg => 'n' :: natToChars (parseVal (seg.drop 1))) = segs := by
  intro segs
  induction segs with
  | nil => intro _; exact ⟨by simp [getIdList.mapSegs], by simp⟩
  | cons seg rest ih =>
    intro hall
    simp only [List.all_cons, Bool.and_eq_true] at hall
    obtain ⟨hseg, hrest⟩ := hall
    obtain ⟨ds, rfl, hne, hdig, hlead⟩ := canonicalSeg_parts hseg
    obtain ⟨ih1, ih2⟩ := ih hrest
    have hdrop : ('n' :: ds).drop 1 = ds := rfl
    have hpy : pyNat? ds = some (parseVal ds) := by
      simp [pyNat?, hdig, List.isEmpty_iff, hne]
    constructor
    · simp only [getIdList.mapSegs, hdrop, hpy, List.map_cons, ih1]
      rfl
    · simp only [List.map_cons, hdrop]
      rw [natToChars_parseVal ds hne hdig hlead, ih2]

theorem getIdStr_getIdList : ∀ s : String, canonicalStr s = true →
    ∃ li, getIdList s = .ok li ∧ getIdStr li = s := by
  intro s hcan
  obtain ⟨h1, h2⟩ := mapSegs_canonical (split2 s.data) hcan
  refine ⟨(split2 s.data).map (fun seg => parseVal (seg.drop 1)), ?_, ?_⟩
  · exact h1
  · show (⟨join2 (((split2 s.data).map (fun seg => parseVal (seg.drop 1))).map
      (fun i => 'n' :: natToChars i))⟩ : String) = s
    have h3 : ((split2 s.data).map (fun seg => parseVal (seg.drop 1))).map
        (fun i => 'n' :: natToChars i) = split2 s.data := by
      rw [List.map_map]
      exact h2
    rw [h3, join2_split2]

/-- Claim C10 (amended): rendering then parsing recovers every
*non-empty* list of naturals, and parsing then rendering is the identity
on canonical identifier strings (non-empty segments joined by `"::"`,
each the letter `n` followed by decimal digits with no leading zeros).
For the empty list, `_get_id_str` renders `""`, which `_get_id_list`
rejects (`int("")` raises `ValueError`), so the claim's unrestricted
first direction fails. -/
theorem c10_id_roundtrip_nonempty :
    (∀ l : List Nat, l ≠ [] → getIdList (getIdStr l) = .ok l) ∧
    (∀ s : String, canonicalStr s = true →
      ∃ li, getIdList s = .ok li ∧ getIdStr li = s) :=
  ⟨getIdList_getIdStr, getIdStr_getIdList⟩

/-- Counterexample for C10 as stated: at `l = []` the round trip raises
instead of returning `[]`. -/
theorem c10_empty_list_fails :
    getIdList (getIdStr ([] : List Nat)) =
      .error "ValueError: invalid literal for int() with base 10" ∧
    getIdList (getIdStr ([] : List Nat)) ≠ .ok [] := by
  have h1 : getIdList (getIdStr ([] : List Nat)) =
      .error "ValueError: invalid literal for int() with base 10" := rfl
  refine ⟨h1, ?_⟩
  rw [h1]
  intro h
  exact Except.noConfusion h

/-- Witness for C10 at concrete values. -/
theorem c10_id_roundtrip_witness :
    ([3, 5] : List Nat) ≠ [] ∧ getIdList (getIdStr [3, 5]) = .ok [3, 5] ∧
    canonicalStr "n0::n12" = true ∧
    (∃ li, getIdList "n0::n12" = .ok li ∧ getIdStr li = "n0::n12") := by
  refine ⟨by simp, c10_id_roundtrip_nonempty.1 [3, 5] (by simp), by decide, ?_⟩
  exact c10_id_roundtrip_nonempty.2 "n0::n12" (by decide)

/-! ## Claim C8: fresh identifier allocation for inserted nodes -/

theorem mapIds_forall2 {sibs : List GNode} {lists : List (List Nat)}
    (h : List.Forall₂ (fun (n : GNode) l => getIdList n.id = .ok l) sibs lists) :
    allocateSiblingId.mapIds (sibs.map GNode.id) = .ok lists := by
  induction h with
  | nil => simp [allocateSiblingId.mapIds]
  | cons hrel _ ih =>
    simp only [List.map_cons, allocateSiblingId.mapIds, hrel, ih]
    rfl

theorem sorted_le_getLast : ∀ (l : List Nat), List.Pairwise (· < ·) l →
    ∀ m, l.getLast? = some m → ∀ s ∈ l, s ≤ m := by
  intro l
  induction l with
  | nil => intro _ m hm; simp at hm
  | cons a t ih =>
    intro hp m hm s hs
    cases t with
    | nil =>
      simp at hm hs
      omega
    | cons b t' =>
      rw [List.getLast?_cons_cons] at hm
      have hp' := List.Pairwise.sublist (List.sublist_cons_self a (b :: t')) hp
      have hmem : m ∈ b :: t' := List.mem_of_getLast?_eq_some hm
      rcases List.mem_cons.mp hs with h | h
      · subst h
        have := (List.pairwise_cons.mp hp).1 m hmem
        omega
      · exact ih hp' m hm s h

theorem forall2_mem_left {R : GNode → Nat → Prop} :
    ∀ {sibs : List GNode} {segs : List Nat}, List.Forall₂ R sibs segs →
    ∀ n ∈ sibs, ∃ s ∈ segs, R n s := by
  intro sibs segs h
  induction h with
  | nil => intro n hn; simp at hn
  | cons hrel _ ih =>
    intro n hn
    rcases List.mem_cons.mp hn with h | h
    · subst h
      exact ⟨_, by simp, hrel⟩
    · obtain ⟨s, hs, hr⟩ := ih n h
      exact ⟨s, by simp [hs], hr⟩

/-- Claim C8: when the union merge inserts a node under a parent whose
sibling list (the list branch of `_add_node_to_graph`) parses as the
parent's identifier prefix followed by one segment each, in ascending
segment order, the allocated identifier is the parent prefix followed by
the maximal segment plus one, and it collides with no existing sibling
identifier. -/
theorem c8_fresh_sibling_id (sibs : List GNode) (pfx : List Nat) (segs : List Nat)
    (hne : sibs ≠ [])
    (hids : List.Forall₂ (fun n s => getIdList n.id = .ok (pfx ++ [s])) sibs segs)
    (hasc : List.Pairwise (· < ·) segs) :
    ∃ m, segs.getLast? = some m ∧
      allocateSiblingId sibs = .ok (getIdStr (pfx ++ [m + 1])) ∧
      (∀ s ∈ segs, s ≤ m) ∧
      (∀ n ∈ sibs, n.id ≠ getIdStr (pfx ++ [m + 1])) := by
  have hsegs_ne : segs ≠ [] := by
    intro h
    subst h
    cases hids
    exact hne rfl
  obtain ⟨m, hm⟩ := Option.ne_none_iff_exists'.mp
    (mt List.getLast?_eq_none_iff.mp hsegs_ne)
  have hmax : ∀ s ∈ segs, s ≤ m := sorted_le_getLast segs hasc m hm
  have hmap : allocateSiblingId.mapIds (sibs.map GNode.id) =
      .ok (segs.map (fun s => pfx ++ [s])) := by
    apply mapIds_forall2
    exact List.forall₂_map_right_iff.mpr hids
  have hlast : (segs.map (fun s => pfx ++ [s])).getLast? = some (pfx ++ [m]) := by
    rw [List.getLast?_map, hm]
    rfl
  have halloc : allocateSiblingId sibs = .ok (getIdStr (pfx ++ [m + 1])) := by
    show (do
      let node_lists ← allocateSiblingId.mapIds (sibs.map GNode.id)
      let lastList ← pyLastE node_lists
      let new_id ← pyIncLast lastList
      Except.ok (getIdStr new_id)) = _
    rw [hmap]
    show (do
      let lastList ← pyLastE (segs.map (fun s => pfx ++ [s]))
      let new_id ← pyIncLast lastList
      Except.ok (getIdStr new_id)) = _
    rw [show pyLastE (segs.map (fun s => pfx ++ [s])) = .ok (pfx ++ [m]) by
      simp [pyLastE, hlast]]
    show (do
      let new_id ← pyIncLast (pfx ++ [m])
      Except.ok (getIdStr new_id)) = _
    rw [show pyIncLast (pfx ++ [m]) = .ok (pfx ++ [m + 1]) by
      simp [pyIncLast, List.getLast?_concat, List.dropLast_concat]]
    rfl
  refine ⟨m, hm, halloc, hmax, ?_⟩
  intro n hn heq
  obtain ⟨s, hs, hrel⟩ := forall2_mem_left hids n hn
  rw [heq, getIdList_getIdStr _ (by simp)] at hrel
  have : s = m + 1 := by
    have := List.append_cancel_left (Except.ok.inj hrel)
    simpa using this.symm
  have := hmax s hs
  omega

/-- Witness for C8 at a concrete two-sibling parent. -/
theorem c8_fresh_sibling_id_witness :
    ∃ m, ([0, 1] : List Nat).getLast? = some m ∧
      allocateSiblingId
        [GNode.mk "n0::n0" "A" "#D2D2D2" "12" [], GNode.mk "n0::n1" "B" "#FFFFFF" "12" []] =
        .ok (getIdStr ([0] ++ [m + 1])) ∧
      (∀ s ∈ ([0, 1] : List Nat), s ≤ m) ∧
      (∀ n ∈ [GNode.mk "n0::n0" "A" "#D2D2D2" "12" [], GNode.mk "n0::n1" "B" "#FFFFFF" "12" []],
        GNode.id n ≠ getIdStr ([0] ++ [m + 1])) := by
  apply c8_fresh_sibling_id
  · simp
  · exact .cons rfl (.cons rfl .nil)
  · refine List.Pairwise.cons ?_ (List.Pairwise.cons ?_ List.Pairwise.nil)
    · intro b hb
      simp only [List.mem_singleton] at hb
      omega
    · intro b hb
      simp at hb

/-! ## Inversion helpers for the `Except` monad -/

theorem ebind_ok {α β : Type} {x : Except String α} {f : α → Except String β} {b : β} :
    (x >>= f) = .ok b ↔ ∃ a, x = .ok a ∧ f a = .ok b := by
  cases x with
  | ok a => simp [Bind.bind, Except.bind]
  | error e => simp [Bind.bind, Except.bind]

theorem emap_ok {α β : Type} {x : Except String α} {g : α → β} {b : β} :
    x.map g = .ok b ↔ ∃ a, x = .ok a ∧ g a = b := by
  cases x with
  | ok a => simp [Except.map]
  | error e => simp [Except.map]

/-! ## Claim C3: edge deduplication in union mode -/

theorem attachCopied_edges {fuel : Nat} {node copied : GNode}
    {pr : Option (Option (List Nat × GNode))} {dg : TopGraph} {cols : Palette}
    {rmap : RMap} {dg' : TopGraph} {rm' : RMap}
    (h : attachCopied fuel node copied pr dg cols rmap = .ok (dg', rm')) :
    dg'.edges = dg.edges := by
  match pr with
  | none =>
    simp only [attachCopied] at h
    rw [ebind_ok] at h
    obtain ⟨⟨ch, rm2⟩, _, h⟩ := h
    cases h
    rfl
  | some none => simp [attachCopied] at h
  | some (some (loc, p)) =>
    simp only [attachCopied] at h
    split at h
    · cases h
      rfl
    · rw [ebind_ok] at h
      obtain ⟨⟨ch, rm2⟩, _, h⟩ := h
      cases h
      rfl

theorem addNodeToGraph_edges {fuel : Nat} {node : GNode} {dg : TopGraph}
    {names : List String} {cols : Palette} {rmap : RMap} {dg' : TopGraph} {rm' : RMap}
    (h : addNodeToGraph fuel node dg names cols rmap = .ok (dg', rm')) :
    dg'.edges = dg.edges := by
  unfold addNodeToGraph at h
  rw [ebind_ok] at h
  obtain ⟨pr, _, h⟩ := h
  rw [ebind_ok] at h
  obtain ⟨cid, _, h⟩ := h
  rw [ebind_ok] at h
  obtain ⟨col, _, h⟩ := h
  exact attachCopied_edges h

theorem unionStep_edges {fuel : Nat} {cols : Palette} {snap : GNode}
    {names : List String} {dn : Option (List Nat × GNode)} {dg : TopGraph}
    {rmap : RMap} {dg1 : TopGraph} {rm1 : RMap}
    (h : unionStep fuel cols snap names dn dg rmap = .ok (dg1, rm1)) :
    dg1.edges = dg.edges := by
  match dn with
  | none =>
    simp only [unionStep] at h
    rw [ebind_ok] at h
    obtain ⟨dgn, _, h⟩ := h
    split at h
    · exact addNodeToGraph_edges h
    · cases h
      rfl
  | some (q, dn') =>
    simp only [unionStep] at h
    cases h
    rfl

theorem unionLoop_edges {cols : Palette} {g1nodes : List GNode} :
    ∀ (fuel : Nat) (stack : List (List Nat × List String × GNode))
      (dg : TopGraph) (rmap : RMap) (dg1 : TopGraph) (rm1 : RMap),
    unionLoop cols g1nodes fuel stack dg rmap = .ok (dg1, rm1) →
    dg1.edges = dg.edges := by
  intro fuel
  induction fuel with
  | zero => intro stack dg rmap dg1 rm1 h; simp [unionLoop] at h
  | succ fuel ih =>
    intro stack dg rmap dg1 rm1 h
    match stack with
    | [] =>
      simp only [unionLoop] at h
      cases h
      rfl
    | (loc, names, snap) :: stack' =>
      simp only [unionLoop] at h
      rw [ebind_ok] at h
      obtain ⟨dn, _, h⟩ := h
      rw [ebind_ok] at h
      obtain ⟨⟨ydg, yrm⟩, hy, h⟩ := h
      exact (ih _ _ _ _ _ h).trans (unionStep_edges hy)

theorem edgeLoop_pairwise {rmap : RMap} :
    ∀ (todo acc : List Edge) (ctr : Nat) (out : List Edge),
    edgeLoop rmap acc todo ctr = .ok out →
    List.Pairwise (fun a b => ¬ sameUnorderedPair a b) acc →
    List.Pairwise (fun a b => ¬ sameUnorderedPair a b) out := by
  intro todo
  induction todo with
  | nil =>
    intro acc ctr out h hacc
    simp only [edgeLoop] at h
    cases h
    exact hacc
  | cons e rest ih =>
    intro acc ctr out h hacc
    simp only [edgeLoop] at h
    rw [ebind_ok] at h
    obtain ⟨s, _, h⟩ := h
    rw [ebind_ok] at h
    obtain ⟨t, _, h⟩ := h
    by_cases hdup : acc.any (fun d =>
      (d.source = s ∧ d.target = t) ∨ (d.target = s ∧ d.source = t))
    · rw [if_pos hdup] at h
      exact ih acc ctr out h hacc
    · rw [if_neg hdup] at h
      refine ih _ _ _ h ?_
      rw [List.pairwise_append]
      refine ⟨hacc, List.pairwise_singleton _ _, ?_⟩
      intro d hd e' he'
      simp only [List.mem_singleton] at he'
      subst he'
      simp only [List.any_eq_true, not_exists, not_and] at hdup
      intro hsame
      have hd' := hdup d hd
      rcases hsame with ⟨h1, h2⟩ | ⟨h1, h2⟩
      · exact hd' (by simp_all)
      · exact hd' (by simp_all)

/-- Claim C3: provided the source document's top-level edge list holds
no two edges with the same unordered endpoint pair, the union-mode
output's top-level edge list does not either — a `g2` edge whose
remapped endpoint pair already occurs in either direction is skipped,
and appended edges receive fresh sequential identifiers `e<counter>`. -/
theorem c3_union_edge_dedup (fuel : Nat) (st : Engine) (g1 g2 : TopGraph)
    (cols : Palette) (st' : Engine) (out : TopGraph) (rm : RMap)
    (hok : findDiffUnionE fuel st g1 g2 cols = .ok (st', out, rm))
    (hsrc : List.Pairwise (fun a b => ¬ sameUnorderedPair a b) g1.edges) :
    List.Pairwise (fun a b => ¬ sameUnorderedPair a b) out.edges := by
  unfold findDiffUnionE at hok
  rw [ebind_ok] at hok
  obtain ⟨⟨st0, dg0, rm0⟩, hfd, hok⟩ := hok
  rw [ebind_ok] at hok
  obtain ⟨⟨dg1, rm1⟩, hunion, hok⟩ := hok
  rw [ebind_ok] at hok
  obtain ⟨edges', hedges, hok⟩ := hok
  cases hok
  have hdg0 : dg0.edges = g1.edges := by
    unfold findDiffE at hfd
    rw [ebind_ok] at hfd
    obtain ⟨painted, _, hfd⟩ := hfd
    rw [ebind_ok] at hfd
    obtain ⟨rc1, _, hfd⟩ := hfd
    rw [ebind_ok] at hfd
    obtain ⟨rc2, _, hfd⟩ := hfd
    cases hfd
    rfl
  have hdg1 : dg1.edges = g1.edges :=
    (unionLoop_edges _ _ _ _ _ _ hunion).trans hdg0
  show List.Pairwise _ edges'
  refine edgeLoop_pairwise g2.edges dg1.edges dg1.edges.length edges' hedges ?_
  rw [hdg1]
  exact hsrc

def c3X : GNode := GNode.mk "n0" "X" "#D2D2D2" "12" []

def c3Y : GNode := GNode.mk "n1" "Y" "#FFCC00" "12" []

def c3G : TopGraph :=
  { nodes := [c3X, c3Y], edges := [{ id := "e0", source := "n0", target := "n1" }] }

def c3St : Engine := { gdict1 := c3G, gdict2 := c3G, recolor1 := none, recolor2 := none }

def c3run : Engine × TopGraph × RMap :=
  match findDiffUnionE 20 c3St c3G c3G instColors with
  | .ok r => r
  | .error _ => (c3St, c3G, [])

/-! ## The resolver on valid label paths

On a label path that actually denotes a node (by first-match descent),
the imperative resolver of `_get_node_from_names` finds exactly that
node, together with its position. -/

theorem findIdxWithLabel_label : ∀ (ns : List GNode) (k : String) (j i : Nat) (a : GNode),
    findIdxWithLabel ns k j = some (i, a) → a.label = k := by
  intro ns
  induction ns with
  | nil => intro k j i a h; simp [findIdxWithLabel] at h
  | cons n rest ih =>
    intro k j i a h
    simp only [findIdxWithLabel] at h
    split at h
    · cases h
      assumption
    · exact ih k (j + 1) i a h

theorem findIdxWithLabel_singleton {m : GNode} {k : String} {j i : Nat} {a : GNode}
    (h : findIdxWithLabel [m] k j = some (i, a)) : i = j ∧ a = m ∧ m.label = k := by
  simp only [findIdxWithLabel] at h
  split at h
  · cases h
    exact ⟨rfl, rfl, by assumption⟩
  · simp [findIdxWithLabel] at h

theorem findPathLoc_nil : ∀ p : List String, findPathLoc [] p = none := by
  intro p
  match p with
  | [] => rfl
  | [k] => simp [findPathLoc, findIdxWithLabel]
  | k :: k2 :: rest => simp [findPathLoc, findIdxWithLabel]

theorem findPathLoc_single_inv {ns : List GNode} {k : String} {ip : List Nat} {n : GNode}
    (h : findPathLoc ns [k] = some (ip, n)) :
    ∃ i, findIdxWithLabel ns k 0 = some (i, n) ∧ ip = [i] := by
  simp only [findPathLoc] at h
  cases hf : findIdxWithLabel ns k 0 with
  | none => rw [hf] at h; simp at h
  | some pr =>
    rw [hf] at h
    obtain ⟨i, a⟩ := pr
    simp only [Option.map_some'] at h
    cases h
    exact ⟨i, rfl, rfl⟩

theorem findPathLoc_cons_inv {ns : List GNode} {k k2 : String} {ks : List String}
    {ip : List Nat} {n : GNode}
    (h : findPathLoc ns (k :: k2 :: ks) = some (ip, n)) :
    ∃ i n1 ip', findIdxWithLabel ns k 0 = some (i, n1) ∧
      findPathLoc n1.sub (k2 :: ks) = some (ip', n) ∧ ip = i :: ip' := by
  cases hf : findIdxWithLabel ns k 0 with
  | none =>
    simp only [findPathLoc, hf] at h
    exact Option.noConfusion h
  | some pr =>
    obtain ⟨i, n1⟩ := pr
    simp only [findPathLoc, hf] at h
    cases hs : findPathLoc n1.sub (k2 :: ks) with
    | none => rw [hs] at h; simp at h
    | some pr2 =>
      obtain ⟨ip2, n2⟩ := pr2
      rw [hs] at h
      simp only [Option.map_some', Option.some.injEq, Prod.mk.injEq] at h
      obtain ⟨h1, h2⟩ := h
      subst h2
      exact ⟨i, n1, ip2, rfl, hs, h1.symm⟩

theorem findPathLoc_label : ∀ (p : List String) (ns : List GNode) (ip : List Nat) (n : GNode),
    findPathLoc ns p = some (ip, n) → p.getLast? = some n.label := by
  intro p
  induction p with
  | nil => intro ns ip n h; simp [findPathLoc] at h
  | cons k rest ih =>
    intro ns ip n h
    match rest with
    | [] =>
      obtain ⟨i, hf, rfl⟩ := findPathLoc_single_inv h
      simp only [List.getLast?_singleton, Option.some.injEq]
      exact (findIdxWithLabel_label ns k 0 i n hf).symm
    | k2 :: ks =>
      obtain ⟨i, n1, ip', hf, hs, rfl⟩ := findPathLoc_cons_inv h
      rw [List.getLast?_cons_cons]
      exact ih n1.sub ip' n hs

theorem findPathLoc_sub_ne {n1 : GNode} {k2 : String} {ks : List String}
    {ip : List Nat} {n : GNode}
    (h : findPathLoc n1.sub (k2 :: ks) = some (ip, n)) : n1.sub ≠ [] := by
  intro hnil
  rw [hnil, findPathLoc_nil] at h
  cases h

theorem resolveStep_found {ctx : List GNode} {ctxPath : List Nat}
    {bound : Option (List Nat × GNode)} {key : String} {i : Nat} {n : GNode}
    (hf : findIdxWithLabel ctx key 0 = some (i, n)) :
    resolveStep ctx ctxPath bound key =
      (if n.sub.isEmpty then .ok (ctx, ctxPath, some (ctxPath ++ [i], n), true)
       else .ok (n.sub, ctxPath ++ [i], some (ctxPath ++ [i], n), true)) := by
  match ctx with
  | [] => simp [findIdxWithLabel] at hf
  | [m] =>
    obtain ⟨rfl, rfl, hm⟩ := findIdxWithLabel_singleton hf
    simp only [resolveStep, hm, beq_self_eq_true, if_true]
  | a :: b :: t =>
    simp only [resolveStep, hf]

theorem resolveLoop_found : ∀ (rest : List String) (ctx : List GNode) (ctxPath : List Nat)
    (bound : Option (List Nat × GNode)) (found0 : Bool) (key : String)
    (ip : List Nat) (n : GNode),
    findPathLoc ctx (key :: rest) = some (ip, n) →
    resolveLoop (key :: rest) ctx ctxPath bound found0 =
      .ok (true, some (ctxPath ++ ip, n)) := by
  intro rest
  induction rest with
  | nil =>
    intro ctx ctxPath bound found0 key ip n h
    obtain ⟨i, hf, rfl⟩ := findPathLoc_single_inv h
    simp only [resolveLoop, resolveStep_found hf]
    split <;> rfl
  | cons k2 ks ih =>
    intro ctx ctxPath bound found0 key ip n h
    obtain ⟨i, n1, ip', hf, hs, rfl⟩ := findPathLoc_cons_inv h
    have hsub : n1.sub ≠ [] := findPathLoc_sub_ne hs
    have hstep : resolveStep ctx ctxPath bound key =
        .ok (n1.sub, ctxPath ++ [i], some (ctxPath ++ [i], n1), true) := by
      rw [resolveStep_found hf, if_neg (by simpa [List.isEmpty_iff] using hsub)]
    have hunf : resolveLoop (key :: k2 :: ks) ctx ctxPath bound found0 =
        (resolveStep ctx ctxPath bound key >>= fun st =>
          resolveLoop (k2 :: ks) st.1 st.2.1 st.2.2.1 st.2.2.2) := rfl
    rw [hunf, hstep]
    show resolveLoop (k2 :: ks) n1.sub (ctxPath ++ [i]) (some (ctxPath ++ [i], n1)) true = _
    rw [ih n1.sub (ctxPath ++ [i]) (some (ctxPath ++ [i], n1)) true k2 ip' n hs]
    simp

/-- `_get_node_from_names` finds the node denoted by a valid label path. -/
theorem resolveNames_found {ns : List GNode} {p : List String} {ip : List Nat} {n : GNode}
    (h : findPathLoc ns p = some (ip, n)) :
    resolveNames ns p = .ok (some (ip, n)) := by
  match p with
  | [] => rw [findPathLoc] at h; cases h
  | k :: ks =>
    have hr := resolveLoop_found ks ns [] none false k ip n h
    simp only [List.nil_append] at hr
    simp only [resolveNames, hr]
    rfl

/-! ## Painted copies: pointwise characterization -/

theorem pyIndex_mem {l : List String} {i : Nat} {x : String}
    (h : pyIndex l i = .ok x) : x ∈ l := by
  simp only [pyIndex] at h
  cases hg : l.get? i with
  | none => rw [hg] at h; cases h
  | some y =>
    rw [hg] at h
    cases h
    exact List.get?_mem hg

theorem pyIndex_ok {l : List String} {i : Nat} (h : i < l.length) :
    ∃ x, pyIndex l i = .ok x := by
  cases hg : l.get? i with
  | none =>
    rw [List.get?_eq_none] at hg
    omega
  | some y => exact ⟨y, by simp only [pyIndex, hg]⟩

theorem getColorId_lt {n : GNode} {cid : Nat} (h : getColorId n = .ok cid) : cid < 3 := by
  unfold getColorId at h
  split at h
  · cases h; omega
  · split at h
    · cases h; omega
    · split at h
      · cases h; omega
      · cases h

theorem getColorId_congr {a b : GNode} (h : a.color = b.color) :
    getColorId a = getColorId b := by
  unfold getColorId
  rw [h]

theorem paintColorOf_cases {g2 : List GNode} {cols : Palette} {names : List String}
    {n : GNode} {col : String} (h : paintColorOf g2 cols names n = .ok col) :
    ∃ cid, getColorId n = .ok cid ∧
      (pyIndex cols.intersect cid = .ok col ∨ pyIndex cols.g1 cid = .ok col) := by
  unfold paintColorOf at h
  rw [ebind_ok] at h
  obtain ⟨r, _, h⟩ := h
  rw [ebind_ok] at h
  obtain ⟨cid, hcid, h⟩ := h
  refine ⟨cid, hcid, ?_⟩
  split at h
  · split at h
    · exact Or.inl h
    · exact Or.inr h
  · exact Or.inr h

/-- The pointwise relation between a source node and the corresponding
node of the painted-then-font-resized copy. -/
def paintedRel (g2 : List GNode) (cols : Palette) (size : Nat) (pfx : List String)
    (a b : GNode) : Prop :=
  a.label = b.label ∧ a.id = b.id ∧ b.fontSize = toString size ∧
  paintColorOf g2 cols (pfx ++ [a.label]) a = .ok b.color ∧
  ∃ f2 mid, paintForest g2 cols f2 (pfx ++ [a.label]) a.sub = .ok mid ∧
    b.sub = resizeForest f2 size mid

theorem paint_resize_forall2 {g2 : List GNode} {cols : Palette} (size : Nat) :
    ∀ (fuel : Nat) (pfx : List String) (ns ns' : List GNode),
    paintForest g2 cols fuel pfx ns = .ok ns' →
    List.Forall₂ (paintedRel g2 cols size pfx) ns (resizeForest fuel size ns') := by
  intro fuel
  induction fuel with
  | zero => intro pfx ns ns' h; simp [paintForest] at h
  | succ fuel ih =>
    intro pfx ns ns' h
    match ns with
    | [] =>
      simp only [paintForest] at h
      cases h
      simp [resizeForest]
    | GNode.mk i l c f sub :: rest =>
      simp only [paintForest] at h
      rw [ebind_ok] at h
      obtain ⟨col, hcol, h⟩ := h
      rw [ebind_ok] at h
      obtain ⟨sub', hsub, h⟩ := h
      rw [ebind_ok] at h
      obtain ⟨rest', hrest, h⟩ := h
      cases h
      simp only [resizeForest]
      refine List.Forall₂.cons ?_ (ih pfx rest rest' hrest)
      exact ⟨rfl, rfl, rfl, hcol, fuel, sub', hsub, rfl⟩

theorem forall2_findIdx {R : GNode → GNode → Prop}
    (hlab : ∀ a b, R a b → a.label = b.label) :
    ∀ {ns ms : List GNode}, List.Forall₂ R ns ms →
    ∀ (k : String) (j i : Nat) (a : GNode), findIdxWithLabel ns k j = some (i, a) →
    ∃ b, findIdxWithLabel ms k j = some (i, b) ∧ R a b := by
  intro ns ms h
  induction h with
  | nil => intro k j i a h; simp [findIdxWithLabel] at h
  | @cons a0 b0 l1 l2 hr ht ih =>
    intro k j i a hf
    simp only [findIdxWithLabel] at hf ⊢
    by_cases hl : a0.label = k
    · rw [if_pos hl] at hf
      cases hf
      rw [if_pos ((hlab _ _ hr) ▸ hl)]
      exact ⟨b0, rfl, hr⟩
    · rw [if_neg hl] at hf
      rw [if_neg (fun hb => hl ((hlab _ _ hr).trans hb))]
      exact ih k (j + 1) i a hf

theorem paint_resize_findPath {g2 : List GNode} {cols : Palette} (size : Nat) :
    ∀ (p : List String) (fuel : Nat) (pfx : List String) (ns ns' : List GNode)
      (ip : List Nat) (n : GNode),
    paintForest g2 cols fuel pfx ns = .ok ns' →
    findPathLoc ns p = some (ip, n) →
    ∃ n', findPathLoc (resizeForest fuel size ns') p = some (ip, n') ∧
      n'.label = n.label ∧ n'.fontSize = toString size ∧
      paintColorOf g2 cols (pfx ++ p) n = .ok n'.color := by
  intro p
  induction p with
  | nil => intro fuel pfx ns ns' ip n hp h; rw [findPathLoc] at h; cases h
  | cons k rest ih =>
    intro fuel pfx ns ns' ip n hp h
    have hF := paint_resize_forall2 size fuel pfx ns ns' hp
    have hlab : ∀ a b, paintedRel g2 cols size pfx a b → a.label = b.label :=
      fun a b hr => hr.1
    match rest with
    | [] =>
      obtain ⟨i, hf, rfl⟩ := findPathLoc_single_inv h
      obtain ⟨b, hfb, hrel⟩ := forall2_findIdx hlab hF k 0 i n hf
      refine ⟨b, ?_, hrel.1.symm, hrel.2.2.1, ?_⟩
      · simp [findPathLoc, hfb]
      · have hlk : n.label = k := findIdxWithLabel_label _ _ _ _ _ hf
        have hc := hrel.2.2.2.1
        rw [hlk] at hc
        exact hc
    | k2 :: ks =>
      obtain ⟨i, n1, ip', hf, hs, rfl⟩ := findPathLoc_cons_inv h
      obtain ⟨b, hfb, hrel⟩ := forall2_findIdx hlab hF k 0 i n1 hf
      obtain ⟨f2, mid, hmid, hbsub⟩ := hrel.2.2.2.2
      obtain ⟨n', hn', hl', hf', hc'⟩ := ih f2 (pfx ++ [n1.label]) n1.sub mid ip' n hmid hs
      refine ⟨n', ?_, hl', hf', ?_⟩
      · simp only [findPathLoc, hfb, hbsub, hn', Option.map_some']
      · have hlk : n1.label = k := findIdxWithLabel_label _ _ _ _ _ hf
        rw [hlk] at hc'
        rw [show pfx ++ k :: k2 :: ks = (pfx ++ [k]) ++ (k2 :: ks) by simp]
        exact hc'

theorem paint_resize_flatten {g2 : List GNode} {cols : Palette} (size : Nat) :
    ∀ (fuel : Nat) (pfx : List String) (ns ns' : List GNode),
    paintForest g2 cols fuel pfx ns = .ok ns' →
    ∀ f2, List.Forall₂ (fun a b =>
      a.label = b.label ∧ a.id = b.id ∧ b.fontSize = toString size ∧
      ∃ cid, getColorId a = .ok cid ∧
        (pyIndex cols.intersect cid = .ok b.color ∨ pyIndex cols.g1 cid = .ok b.color))
      (flattenF f2 ns) (flattenF f2 (resizeForest fuel size ns')) := by
  intro fuel
  induction fuel with
  | zero => intro pfx ns ns' h; simp [paintForest] at h
  | succ fuel ih =>
    intro pfx ns ns' h f2
    match ns with
    | [] =>
      simp only [paintForest] at h
      cases h
      cases f2 <;> simp [flattenF, resizeForest]
    | GNode.mk i l c f sub :: rest =>
      simp only [paintForest] at h
      rw [ebind_ok] at h
      obtain ⟨col, hcol, h⟩ := h
      rw [ebind_ok] at h
      obtain ⟨sub', hsub, h⟩ := h
      rw [ebind_ok] at h
      obtain ⟨rest', hrest, h⟩ := h
      cases h
      cases f2 with
      | zero => simp [flattenF]
      | succ f2 =>
        simp only [resizeForest, flattenF]
        refine List.Forall₂.cons ?_ (List.rel_append (ih _ _ _ hsub f2) (ih _ _ _ hrest f2))
        obtain ⟨cid, hcid, hor⟩ := paintColorOf_cases hcol
        exact ⟨rfl, rfl, rfl, cid, hcid, hor⟩

/-- The pointwise relation between a node and the corresponding node of
the font-resized copy of the same tree, certified by a successful
recoloring pass over the same tree. -/
def resizedRel (colorList : List String) (size : Nat) (a b : GNode) : Prop :=
  a.label = b.label ∧ a.id = b.id ∧ a.color = b.color ∧ b.fontSize = toString size ∧
  ∃ f2, (∃ mid, recolorForest f2 colorList a.sub = .ok mid) ∧
    b.sub = resizeForest f2 size a.sub

theorem recolor_resize_forall2 {colorList : List String} (size : Nat) :
    ∀ (fuel : Nat) (ns rs : List GNode),
    recolorForest fuel colorList ns = .ok rs →
    List.Forall₂ (resizedRel colorList size) ns (resizeForest fuel size ns) := by
  intro fuel
  induction fuel with
  | zero => intro ns rs h; simp [recolorForest] at h
  | succ fuel ih =>
    intro ns rs h
    match ns with
    | [] =>
      simp only [recolorForest] at h
      cases h
      simp [resizeForest]
    | GNode.mk i l c f sub :: rest =>
      simp only [recolorForest] at h
      rw [ebind_ok] at h
      obtain ⟨cid, hcid, h⟩ := h
      rw [ebind_ok] at h
      obtain ⟨col, hcol, h⟩ := h
      rw [ebind_ok] at h
      obtain ⟨sub', hsub, h⟩ := h
      rw [ebind_ok] at h
      obtain ⟨rest', hrest, h⟩ := h
      simp only [resizeForest]
      refine List.Forall₂.cons ?_ (ih rest rest' hrest)
      exact ⟨rfl, rfl, rfl, rfl, fuel, ⟨sub', hsub⟩, rfl⟩

theorem recolor_resize_findPath {colorList : List String} (size : Nat) :
    ∀ (p : List String) (fuel : Nat) (ns rs : List GNode) (ip : List Nat) (n : GNode),
    recolorForest fuel colorList ns = .ok rs →
    findPathLoc ns p = some (ip, n) →
    ∃ n', findPathLoc (resizeForest fuel size ns) p = some (ip, n') ∧
      n'.label = n.label ∧ n'.color = n.color ∧ n'.fontSize = toString size := by
  intro p
  induction p with
  | nil => intro fuel ns rs ip n hp h; rw [findPathLoc] at h; cases h
  | cons k rest ih =>
    intro fuel ns rs ip n hp h
    have hF := recolor_resize_forall2 size fuel ns rs hp
    have hlab : ∀ a b, resizedRel colorList size a b → a.label = b.label :=
      fun a b hr => hr.1
    match rest with
    | [] =>
      obtain ⟨i, hf, rfl⟩ := findPathLoc_single_inv h
      obtain ⟨b, hfb, hrel⟩ := forall2_findIdx hlab hF k 0 i n hf
      exact ⟨b, by simp [findPathLoc, hfb], hrel.1.symm, hrel.2.2.1.symm, hrel.2.2.2.1⟩
    | k2 :: ks =>
      obtain ⟨i, n1, ip', hf, hs, rfl⟩ := findPathLoc_cons_inv h
      obtain ⟨b, hfb, hrel⟩ := forall2_findIdx hlab hF k 0 i n1 hf
      obtain ⟨f2, ⟨mid, hmid⟩, hbsub⟩ := hrel.2.2.2.2
      obtain ⟨n', hn', hl', hc', hf'⟩ := ih f2 n1.sub mid ip' n hmid hs
      refine ⟨n', ?_, hl', hc', hf'⟩
      simp only [findPathLoc, hfb, hbsub, hn', Option.map_some']


theorem ok_bind {α β : Type} (a : α) (f : α → Except String β) :
    ((Except.ok a : Except String α) >>= f) = f a := rfl

theorem findDiffE_inv {fuel : Nat} {st : Engine} {g1 g2 : TopGraph} {cols : Palette}
    {st' : Engine} {dg : TopGraph} {rm : RMap}
    (h : findDiffE fuel st g1 g2 cols = .ok (st', dg, rm)) :
    ∃ painted rc1 rc2,
      paintForest g2.nodes cols fuel [] g1.nodes = .ok painted ∧
      recolorGraph fuel st.gdict1 instColors.g1 = .ok rc1 ∧
      recolorGraph fuel st.gdict2 instColors.g2 = .ok rc2 ∧
      st' = { gdict1 := resizeFonts fuel st.gdict1 20
              gdict2 := resizeFonts fuel st.gdict2 20
              recolor1 := some rc1, recolor2 := some rc2 } ∧
      dg = resizeFonts fuel { nodes := painted, edges := g1.edges } 20 ∧
      rm = identRmapF fuel g1.nodes := by
  unfold findDiffE at h
  rw [ebind_ok] at h
  obtain ⟨painted, h1, h⟩ := h
  rw [ebind_ok] at h
  obtain ⟨rc1, h2, h⟩ := h
  rw [ebind_ok] at h
  obtain ⟨rc2, h3, h⟩ := h
  cases h
  exact ⟨painted, rc1, rc2, h1, h2, h3, rfl, rfl, rfl⟩

/-! ## Claim C2: coverage of the diff painting -/

/-- Claim C2: after `_find_diff(source, other)` on well-formed inputs
(given that the run succeeded, which presupposes every fill color is
classifiable), every non-root node of the painted copy corresponds to a
source node and carries exactly one of the intersect or the source-only
palette color for that source node's color class; under a palette with
disjoint slots no node carries an other-only color, and no node is left
unpainted (the correspondence is total over the flattened forests). -/
theorem c2_diff_paints_each_node (fuel : Nat) (st : Engine) (g1 g2 : TopGraph)
    (cols : Palette) (st' : Engine) (dg : TopGraph) (rm : RMap)
    (hok : findDiffE fuel st g1 g2 cols = .ok (st', dg, rm))
    (hdisj1 : ∀ x ∈ cols.intersect, x ∉ cols.g1)
    (hdisj2 : ∀ x ∈ cols.g2, x ∉ cols.g1 ∧ x ∉ cols.intersect) :
    ∀ f2, List.Forall₂ (fun a b =>
      a.label = b.label ∧ a.id = b.id ∧
      ∃ cid, getColorId a = .ok cid ∧
        (pyIndex cols.intersect cid = .ok b.color ∨ pyIndex cols.g1 cid = .ok b.color) ∧
        ¬(pyIndex cols.intersect cid = .ok b.color ∧ pyIndex cols.g1 cid = .ok b.color) ∧
        b.color ∉ cols.g2)
      (flattenF f2 g1.nodes) (flattenF f2 dg.nodes) := by
  obtain ⟨painted, rc1, rc2, h1, _, _, _, hdg, _⟩ := findDiffE_inv hok
  subst hdg
  intro f2
  have hF := paint_resize_flatten 20 fuel [] g1.nodes painted h1 f2
  refine hF.imp ?_
  intro a b hr
  obtain ⟨hl, hid, _, cid, hcid, hor⟩ := hr
  refine ⟨hl, hid, cid, hcid, hor, ?_, ?_⟩
  · rintro ⟨hi, hg1⟩
    exact hdisj1 b.color (pyIndex_mem hi) (pyIndex_mem hg1)
  · intro hbg2
    rcases hor with hi | hg1
    · exact (hdisj2 b.color hbg2).2 (pyIndex_mem hi)
    · exact (hdisj2 b.color hbg2).1 (pyIndex_mem hg1)

def c2A : TopGraph :=
  { nodes := [GNode.mk "n0" "X" "#D2D2D2" "12" [], GNode.mk "n1" "W" "#FFFFFF" "12" []]
    edges := [] }

def c2B : TopGraph :=
  { nodes := [GNode.mk "n0" "X" "#D2D2D2" "12" [], GNode.mk "n1" "Z" "#FFCC00" "12" []]
    edges := [] }

def c2St : Engine := { gdict1 := c2A, gdict2 := c2B, recolor1 := none, recolor2 := none }

def c2run : Engine × TopGraph × RMap :=
  match findDiffE 20 c2St c2A c2B instColors with
  | .ok r => r
  | .error _ => (c2St, c2A, [])

/-- Witness for C2 on a concrete diff with one shared and one
source-only node. -/
theorem c2_diff_paints_each_node_witness :
    List.Forall₂ (fun a b =>
      a.label = b.label ∧ a.id = b.id ∧
      ∃ cid, getColorId a = .ok cid ∧
        (pyIndex instColors.intersect cid = .ok b.color ∨
          pyIndex instColors.g1 cid = .ok b.color) ∧
        ¬(pyIndex instColors.intersect cid = .ok b.color ∧
          pyIndex instColors.g1 cid = .ok b.color) ∧
        b.color ∉ instColors.g2)
      (flattenF 5 c2A.nodes) (flattenF 5 c2run.2.1.nodes) :=
  c2_diff_paints_each_node 20 c2St c2A c2B instColors c2run.1 c2run.2.1 c2run.2.2 rfl
    (by decide) (by decide) 5

/-! ## Success of the painting pass on a self-diff (claim C4) -/

theorem exceptIsOk_iff {α : Type} {e : Except String α} :
    e.isOk = true ↔ ∃ a, e = .ok a := by
  cases e <;> simp [Except.isOk, Except.toBool]

theorem classifiableF_cons {fuel : Nat} {n : GNode} {ns : List GNode} :
    classifiableF (fuel + 1) (n :: ns) = true ↔
    (∃ c, getColorId n = .ok c) ∧ classifiableF fuel n.sub = true ∧
      classifiableF fuel ns = true := by
  simp [classifiableF, exceptIsOk_iff, and_assoc]

theorem uniqF_cons {fuel : Nat} {n : GNode} {ns : List GNode} :
    uniqF (fuel + 1) (n :: ns) = true ↔
    (∀ m ∈ ns, m.label ≠ n.label) ∧ uniqF fuel n.sub = true ∧ uniqF fuel ns = true := by
  simp [uniqF, bne_iff_ne, and_assoc]

theorem uniqF_pairwise : ∀ (fuel : Nat) (ms : List GNode), uniqF fuel ms = true →
    List.Pairwise (fun a b => a.label ≠ b.label) ms := by
  intro fuel
  induction fuel with
  | zero => intro ms h; simp [uniqF] at h
  | succ fuel ih =>
    intro ms h
    match ms with
    | [] => exact List.Pairwise.nil
    | n :: rest =>
      obtain ⟨hall, _, hrest⟩ := uniqF_cons.mp h
      exact List.Pairwise.cons (fun m hm => (hall m hm).symm) (ih rest hrest)

theorem findIdx_mem_unique : ∀ (ms : List GNode) (c : GNode), c ∈ ms →
    List.Pairwise (fun a b => a.label ≠ b.label) ms →
    ∀ j, ∃ i, findIdxWithLabel ms c.label j = some (i, c) := by
  intro ms
  induction ms with
  | nil => intro c hc; simp at hc
  | cons n rest ih =>
    intro c hc hp j
    rcases List.mem_cons.mp hc with h | h
    · subst h
      exact ⟨j, by simp [findIdxWithLabel]⟩
    · have hne : n.label ≠ c.label := (List.pairwise_cons.mp hp).1 c h
      obtain ⟨i, hi⟩ := ih c h (List.pairwise_cons.mp hp).2 (j + 1)
      refine ⟨i, ?_⟩
      simp only [findIdxWithLabel]
      rw [if_neg hne, hi]

theorem findPathLoc_append : ∀ (q : List String) (k : String) (ns : List GNode), q ≠ [] →
    findPathLoc ns (q ++ [k]) = (findPathLoc ns q).bind
      (fun pr => (findIdxWithLabel pr.2.sub k 0).map (fun z => (pr.1 ++ [z.1], z.2))) := by
  intro q
  induction q with
  | nil => intro k ns h; exact absurd rfl h
  | cons k0 q' ih =>
    intro k ns _
    match q' with
    | [] =>
      show findPathLoc ns [k0, k] = _
      cases hf : findIdxWithLabel ns k0 0 with
      | none => simp [findPathLoc, hf]
      | some pr =>
        obtain ⟨i, n1⟩ := pr
        simp only [findPathLoc, hf]
        cases hg : findIdxWithLabel n1.sub k 0 with
        | none => simp [hg]
        | some z =>
          obtain ⟨j, c⟩ := z
          simp [hg]
    | k1 :: q'' =>
      show findPathLoc ns (k0 :: (k1 :: q'') ++ [k]) = _
      cases hf : findIdxWithLabel ns k0 0 with
      | none => simp [findPathLoc, hf]
      | some pr =>
        obtain ⟨i, n1⟩ := pr
        have hrec := ih k n1.sub (by simp)
        simp only [List.cons_append, findPathLoc, hf] at hrec ⊢
        have hrec2 : findPathLoc n1.sub (k1 :: q''.append [k]) =
            (findPathLoc n1.sub (k1 :: q'')).bind (fun pr =>
              Option.map (fun z => (pr.1 ++ [z.1], z.2)) (findIdxWithLabel pr.2.sub k 0)) := hrec
        rw [hrec2]
        cases hz : findPathLoc n1.sub (k1 :: q'') with
        | none => simp
        | some pr2 =>
          obtain ⟨ipz, nz⟩ := pr2
          simp only [Option.some_bind, Option.map_some']
          cases hg : findIdxWithLabel nz.sub k 0 with
          | none => simp [hg]
          | some z =>
            obtain ⟨j, c⟩ := z
            simp [hg]

theorem paint_self_success {G2 : List GNode} {cols : Palette}
    (hlen : cols.intersect.length = 3) :
    ∀ (fuel : Nat) (pfx : List String) (ns : List GNode),
    classifiableF fuel ns = true → uniqF fuel ns = true →
    (∀ n ∈ ns, ∃ ip, findPathLoc G2 (pfx ++ [n.label]) = some (ip, n)) →
    ∃ ns', paintForest G2 cols fuel pfx ns = .ok ns' := by
  intro fuel
  induction fuel with
  | zero => intro pfx ns hc hu hH; simp [classifiableF] at hc
  | succ fuel ih =>
    intro pfx ns hc hu hH
    match ns with
    | [] => exact ⟨[], by simp [paintForest]⟩
    | GNode.mk i l c f sub :: rest =>
      obtain ⟨⟨cid, hcid⟩, hcsub, hcrest⟩ := classifiableF_cons.mp hc
      obtain ⟨_, husub, hurest⟩ := uniqF_cons.mp hu
      simp only [GNode.sub] at hcsub husub
      obtain ⟨ip, hfp⟩ := hH (GNode.mk i l c f sub) (by simp)
      simp only [GNode.label] at hfp
      have hres : resolveNames G2 (pfx ++ [l]) =
          .ok (some (ip, GNode.mk i l c f sub)) := resolveNames_found hfp
      obtain ⟨colx, hcolx⟩ := pyIndex_ok (l := cols.intersect)
        (by rw [hlen]; exact getColorId_lt hcid)
      have hpc : paintColorOf G2 cols (pfx ++ [l]) (GNode.mk i l c f sub) = .ok colx := by
        unfold paintColorOf
        rw [hres, ok_bind, hcid, ok_bind]
        simpa using hcolx
      have hHsub : ∀ m ∈ sub, ∃ ip2,
          findPathLoc G2 ((pfx ++ [l]) ++ [m.label]) = some (ip2, m) := by
        intro m hm
        obtain ⟨j, hj⟩ := findIdx_mem_unique sub m hm (uniqF_pairwise fuel sub husub) 0
        refine ⟨ip ++ [j], ?_⟩
        rw [findPathLoc_append (pfx ++ [l]) m.label G2 (by simp), hfp]
        simp [GNode.sub, hj]
      obtain ⟨sub', hsub'⟩ := ih (pfx ++ [l]) sub hcsub husub hHsub
      obtain ⟨rest', hrest'⟩ := ih pfx rest hcrest hurest
        (fun m hm => hH m (List.mem_cons_of_mem _ hm))
      exact ⟨GNode.mk i l colx f sub' :: rest',
        by simp only [paintForest, hpc, ok_bind, hsub', hrest']⟩

theorem recolor_success (colorList : List String) (hlen : colorList.length = 3) :
    ∀ (fuel : Nat) (ns : List GNode), classifiableF fuel ns = true →
    ∃ ns', recolorForest fuel colorList ns = .ok ns' := by
  intro fuel
  induction fuel with
  | zero => intro ns hc; simp [classifiableF] at hc
  | succ fuel ih =>
    intro ns hc
    match ns with
    | [] => exact ⟨[], by simp [recolorForest]⟩
    | GNode.mk i l c f sub :: rest =>
      obtain ⟨⟨cid, hcid⟩, hcsub, hcrest⟩ := classifiableF_cons.mp hc
      obtain ⟨colx, hcolx⟩ := pyIndex_ok (l := colorList)
        (by rw [hlen]; exact getColorId_lt hcid)
      obtain ⟨sub', hsub'⟩ := ih sub hcsub
      obtain ⟨rest', hrest'⟩ := ih rest hcrest
      exact ⟨GNode.mk i l colx f sub' :: rest',
        by simp only [recolorForest, hcid, ok_bind, hcolx, hsub', hrest']⟩


/-! ## Claim C4: a self-diff paints everything with the intersect color -/

/-- Claim C4: for a well-formed document `G` with unique sibling labels
and recognized fill colors (certificates `uniqF` / `classifiableF`, which
also witness that the fuel covers the whole document), `diff(G, G)`
succeeds and paints the node at every label path with the intersect
palette color for that node's color class; with pairwise-disjoint
palette slots no node receives a source-only or other-only color. -/
theorem c4_self_diff_all_intersect (fuel : Nat) (G : TopGraph) (cols : Palette)
    (huniq : uniqF fuel G.nodes = true)
    (hclass : classifiableF fuel G.nodes = true)
    (hlen : cols.intersect.length = 3)
    (hdisj : ∀ x ∈ cols.intersect, x ∉ cols.g1 ∧ x ∉ cols.g2) :
    ∃ st' dg rm,
      findDiffE fuel { gdict1 := G, gdict2 := G, recolor1 := none, recolor2 := none }
        G G cols = .ok (st', dg, rm) ∧
      ∀ p ip n, findPathLoc G.nodes p = some (ip, n) →
        ∃ n' cid, findPathN dg.nodes p = some n' ∧ getColorId n = .ok cid ∧
          pyIndex cols.intersect cid = .ok n'.color ∧
          n'.color ∉ cols.g1 ∧ n'.color ∉ cols.g2 := by
  have hHtop : ∀ n ∈ G.nodes, ∃ ip, findPathLoc G.nodes ([] ++ [n.label]) = some (ip, n) := by
    intro n hn
    obtain ⟨i, hi⟩ := findIdx_mem_unique G.nodes n hn (uniqF_pairwise fuel G.nodes huniq) 0
    exact ⟨[i], by simp [findPathLoc, hi]⟩
  obtain ⟨painted, hpaint⟩ := paint_self_success hlen fuel [] G.nodes hclass huniq hHtop
  obtain ⟨rc1, hrc1⟩ := recolor_success instColors.g1 rfl fuel G.nodes hclass
  obtain ⟨rc2, hrc2⟩ := recolor_success instColors.g2 rfl fuel G.nodes hclass
  have hrg1 : recolorGraph fuel G instColors.g1 = .ok { nodes := rc1, edges := G.edges } := by
    simp only [recolorGraph, hrc1]
    rfl
  have hrg2 : recolorGraph fuel G instColors.g2 = .ok { nodes := rc2, edges := G.edges } := by
    simp only [recolorGraph, hrc2]
    rfl
  refine ⟨{ gdict1 := resizeFonts fuel G 20, gdict2 := resizeFonts fuel G 20
            recolor1 := some { nodes := rc1, edges := G.edges }
            recolor2 := some { nodes := rc2, edges := G.edges } },
          resizeFonts fuel { nodes := painted, edges := G.edges } 20,
          identRmapF fuel G.nodes, ?_, ?_⟩
  · simp only [findDiffE, hpaint, ok_bind, hrg1, hrg2]
  · intro p ip n hfp
    obtain ⟨n', hn', hl', hf', hc'⟩ :=
      paint_resize_findPath 20 p fuel [] G.nodes painted ip n hpaint hfp
    simp only [List.nil_append] at hc'
    have hres : resolveNames G.nodes p = .ok (some (ip, n)) := resolveNames_found hfp
    have hval : (getColorId n >>= fun cid => pyIndex cols.intersect cid) = .ok n'.color := by
      have heq : paintColorOf G.nodes cols p n =
          (getColorId n >>= fun cid => pyIndex cols.intersect cid) := by
        unfold paintColorOf
        rw [hres, ok_bind]
        simp
      rw [← heq]
      exact hc'
    rw [ebind_ok] at hval
    obtain ⟨cid, hcid, hpi⟩ := hval
    refine ⟨n', cid, ?_, hcid, hpi, ?_, ?_⟩
    · show (findPathLoc (resizeForest fuel 20 painted) p).map (fun q => q.2) = some n'
      rw [hn']
      rfl
    · exact (hdisj _ (pyIndex_mem hpi)).1
    · exact (hdisj _ (pyIndex_mem hpi)).2

def c4G : TopGraph :=
  { nodes := [GNode.mk "n0" "X" "#D2D2D2" "12" [], GNode.mk "n1" "W" "#FFFFFF" "12" []]
    edges := [] }

/-- Witness for C4 on a concrete two-node document. -/
theorem c4_self_diff_all_intersect_witness :
    ∃ st' dg rm,
      findDiffE 20 { gdict1 := c4G, gdict2 := c4G, recolor1 := none, recolor2 := none }
        c4G c4G instColors = .ok (st', dg, rm) ∧
      ∀ p ip n, findPathLoc c4G.nodes p = some (ip, n) →
        ∃ n' cid, findPathN dg.nodes p = some n' ∧ getColorId n = .ok cid ∧
          pyIndex instColors.intersect cid = .ok n'.color ∧
          n'.color ∉ instColors.g1 ∧ n'.color ∉ instColors.g2 :=
  c4_self_diff_all_intersect 20 c4G instColors rfl rfl rfl (by decide)


/-! ## Claim C5: the palette of the mirrored diff in a matrix run -/

theorem diffGraphsMatrixE_inv {fuel : Nat} {st : Engine} {cols : Palette}
    {st2 : Engine} {dg1 dg2 : TopGraph}
    (h : diffGraphsMatrixE fuel st cols = .ok (st2, dg1, dg2)) :
    ∃ st1 rm1 rm2,
      findDiffE fuel st st.gdict1 st.gdict2 cols = .ok (st1, dg1, rm1) ∧
      findDiffE fuel st1 st1.gdict2 st1.gdict1
        { g1 := cols.g2, g2 := cols.g1, intersect := cols.intersect } = .ok (st2, dg2, rm2) := by
  unfold diffGraphsMatrixE at h
  rw [ebind_ok] at h
  obtain ⟨⟨st1, dg1a, rm1⟩, hA, h⟩ := h
  rw [ebind_ok] at h
  obtain ⟨⟨st2a, dg2a, rm2⟩, hB, h⟩ := h
  simp only [Except.ok.injEq, Prod.mk.injEq] at h
  obtain ⟨rfl, rfl, rfl⟩ := h
  exact ⟨st1, rm1, rm2, hA, hB⟩

def c5A : TopGraph := { nodes := [GNode.mk "n0" "X" "#D2D2D2" "12" []], edges := [] }

def c5B : TopGraph := { nodes := [GNode.mk "n1" "X" "#D2D2D2" "12" []], edges := [] }

def c5St : Engine := { gdict1 := c5A, gdict2 := c5B, recolor1 := none, recolor2 := none }

def c5run : Engine × TopGraph × TopGraph :=
  match diffGraphsMatrixE 20 c5St instColors with
  | .ok r => r
  | .error _ => (c5St, c5A, c5A)

/-- The palette the claim prescribes for the mirrored run: the
source-only (`g1`) and intersect slots exchanged, other-only kept. -/
def c5SwapSpec : Palette :=
  { g1 := instColors.intersect, g2 := instColors.g2, intersect := instColors.g1 }

def c5StR : Engine := { gdict1 := c5B, gdict2 := c5A, recolor1 := none, recolor2 := none }

def c5run2 : Engine × TopGraph × RMap :=
  match findDiffE 20 c5StR c5B c5A c5SwapSpec with
  | .ok r => r
  | .error _ => (c5StR, c5B, [])

/-- Counterexample to claim C5: on two one-node documents sharing label
path X, the engine's matrix run paints X with the intersect color
"#c4ed9e" in BOTH outputs — the second diff exchanges the source-only
and other-only slots and keeps intersect — whereas a mirrored diff with
the source-only and intersect slots exchanged, as the claim prescribes,
would paint X with "#dadbfd"; the two outputs agree at the shared path
instead of complementing each other. -/
theorem c5_swap_slots_counterexample :
    diffGraphsMatrixE 20 c5St instColors = .ok c5run ∧
    (findPathN c5run.2.1.nodes ["X"]).map GNode.color = some "#c4ed9e" ∧
    (findPathN c5run.2.2.nodes ["X"]).map GNode.color = some "#c4ed9e" ∧
    findDiffE 20 c5StR c5B c5A c5SwapSpec = .ok c5run2 ∧
    (findPathN c5run2.2.1.nodes ["X"]).map GNode.color = some "#dadbfd" ∧
    ("#c4ed9e" : String) ≠ "#dadbfd" :=
  ⟨rfl, rfl, rfl, rfl, rfl, by decide⟩

/-- Claim C5 (amended): in a matrix run the second, mirrored diff uses
the palette with the source-only and OTHER-only slots exchanged — the
intersect slot is kept — applied to the font-mutated state left by the
first diff; consequently at every label path shared by both inputs the
two outputs draw their colors from the same intersect slot, indexed by
each node's own color class, so the colorings agree there rather than
complement each other. -/
theorem c5_matrix_mirror_amended (fuel : Nat) (st : Engine) (cols : Palette)
    (st2 : Engine) (dg1 dg2 : TopGraph) (p : List String)
    (ip1 ip2 : List Nat) (n1 n2 : GNode)
    (h : diffGraphsMatrixE fuel st cols = .ok (st2, dg1, dg2))
    (h1 : findPathLoc st.gdict1.nodes p = some (ip1, n1))
    (h2 : findPathLoc st.gdict2.nodes p = some (ip2, n2)) :
    (∃ st1 rm1 rm2,
      findDiffE fuel st st.gdict1 st.gdict2 cols = .ok (st1, dg1, rm1) ∧
      findDiffE fuel st1 st1.gdict2 st1.gdict1
        { g1 := cols.g2, g2 := cols.g1, intersect := cols.intersect } = .ok (st2, dg2, rm2)) ∧
    (∃ m1 cid1, findPathN dg1.nodes p = some m1 ∧
      getColorId n1 = .ok cid1 ∧ pyIndex cols.intersect cid1 = .ok m1.color) ∧
    (∃ m2 cid2, findPathN dg2.nodes p = some m2 ∧
      getColorId n2 = .ok cid2 ∧ pyIndex cols.intersect cid2 = .ok m2.color) := by
  obtain ⟨st1, rm1, rm2, hA, hB⟩ := diffGraphsMatrixE_inv h
  -- the shared path carries the same label in both inputs
  have hlab12 : n2.label = n1.label := by
    have e1 := findPathLoc_label p st.gdict1.nodes ip1 n1 h1
    have e2 := findPathLoc_label p st.gdict2.nodes ip2 n2 h2
    rw [e1] at e2
    exact (Option.some.injEq _ _).mp e2.symm
  obtain ⟨painted1, rc1, rc2, hpaint1, hrc1, hrc2, hst1, hdg1, -⟩ := findDiffE_inv hA
  refine ⟨⟨st1, rm1, rm2, hA, hB⟩, ?_, ?_⟩
  · -- first output: n1 resolves against the second input with an equal label
    obtain ⟨m1, hm1, hml1, hmf1, hmc1⟩ :=
      paint_resize_findPath 20 p fuel [] st.gdict1.nodes painted1 ip1 n1 hpaint1 h1
    simp only [List.nil_append] at hmc1
    have hres2 : resolveNames st.gdict2.nodes p = .ok (some (ip2, n2)) := resolveNames_found h2
    have hval : (getColorId n1 >>= fun cid => pyIndex cols.intersect cid) = .ok m1.color := by
      have heq : paintColorOf st.gdict2.nodes cols p n1 =
          (getColorId n1 >>= fun cid => pyIndex cols.intersect cid) := by
        unfold paintColorOf
        rw [hres2, ok_bind]
        simp [hlab12]
      rw [← heq]
      exact hmc1
    rw [ebind_ok] at hval
    obtain ⟨cid1, hcid1, hpi1⟩ := hval
    refine ⟨m1, cid1, ?_, hcid1, hpi1⟩
    rw [hdg1]
    show (findPathLoc (resizeForest fuel 20 painted1) p).map (fun q => q.2) = some m1
    rw [hm1]
    rfl
  · -- second output: both path occurrences survive the font mutation
    have hrf1 : recolorForest fuel instColors.g1 st.gdict1.nodes = .ok rc1.nodes := by
      have := hrc1
      unfold recolorGraph at this
      rw [emap_ok] at this
      obtain ⟨ns, hns, hrc⟩ := this
      rw [← hrc]
      exact hns
    have hrf2 : recolorForest fuel instColors.g2 st.gdict2.nodes = .ok rc2.nodes := by
      have := hrc2
      unfold recolorGraph at this
      rw [emap_ok] at this
      obtain ⟨ns, hns, hrc⟩ := this
      rw [← hrc]
      exact hns
    obtain ⟨n1', hfp1', hlab1', hcol1', -⟩ :=
      recolor_resize_findPath 20 p fuel st.gdict1.nodes rc1.nodes ip1 n1 hrf1 h1
    obtain ⟨n2', hfp2', hlab2', hcol2', -⟩ :=
      recolor_resize_findPath 20 p fuel st.gdict2.nodes rc2.nodes ip2 n2 hrf2 h2
    obtain ⟨painted2, rc1b, rc2b, hpaint2, hrc1b, hrc2b, hst2, hdg2, -⟩ := findDiffE_inv hB
    have hg2nodes : st1.gdict2.nodes = resizeForest fuel 20 st.gdict2.nodes := by
      rw [hst1]
      rfl
    have hg1nodes : st1.gdict1.nodes = resizeForest fuel 20 st.gdict1.nodes := by
      rw [hst1]
      rfl
    rw [hg2nodes] at hpaint2
    obtain ⟨m2, hm2, hml2, hmf2, hmc2⟩ :=
      paint_resize_findPath 20 p fuel [] (resizeForest fuel 20 st.gdict2.nodes)
        painted2 ip2 n2' hpaint2 hfp2'
    simp only [List.nil_append] at hmc2
    have hres1 : resolveNames st1.gdict1.nodes p = .ok (some (ip1, n1')) := by
      rw [hg1nodes]
      exact resolveNames_found hfp1'
    have hlabs : n1'.label = n2'.label := by
      rw [hlab1', hlab2', hlab12]
    have hval : (getColorId n2' >>= fun cid => pyIndex cols.intersect cid) = .ok m2.color := by
      have heq : paintColorOf st1.gdict1.nodes
          { g1 := cols.g2, g2 := cols.g1, intersect := cols.intersect } p n2' =
          (getColorId n2' >>= fun cid => pyIndex cols.intersect cid) := by
        unfold paintColorOf
        rw [hres1, ok_bind]
        simp [hlabs]
      rw [← heq]
      exact hmc2
    rw [ebind_ok] at hval
    obtain ⟨cid2, hcid2, hpi2⟩ := hval
    rw [getColorId_congr hcol2'] at hcid2
    refine ⟨m2, cid2, ?_, hcid2, hpi2⟩
    rw [hdg2]
    show (findPathLoc (resizeForest fuel 20 painted2) p).map (fun q => q.2) = some m2
    rw [hm2]
    rfl

/-- Witness for the amended C5 on the concrete one-node documents. -/
theorem c5_matrix_mirror_amended_witness :
    (∃ st1 rm1 rm2,
      findDiffE 20 c5St c5St.gdict1 c5St.gdict2 instColors = .ok (st1, c5run.2.1, rm1) ∧
      findDiffE 20 st1 st1.gdict2 st1.gdict1
        { g1 := instColors.g2, g2 := instColors.g1, intersect := instColors.intersect } =
        .ok (c5run.1, c5run.2.2, rm2)) ∧
    (∃ m1 cid1, findPathN c5run.2.1.nodes ["X"] = some m1 ∧
      getColorId (GNode.mk "n0" "X" "#D2D2D2" "12" []) = .ok cid1 ∧
      pyIndex instColors.intersect cid1 = .ok m1.color) ∧
    (∃ m2 cid2, findPathN c5run.2.2.nodes ["X"] = some m2 ∧
      getColorId (GNode.mk "n1" "X" "#D2D2D2" "12" []) = .ok cid2 ∧
      pyIndex instColors.intersect cid2 = .ok m2.color) :=
  c5_matrix_mirror_amended 20 c5St instColors c5run.1 c5run.2.1 c5run.2.2 ["X"]
    [0] [0] (GNode.mk "n0" "X" "#D2D2D2" "12" []) (GNode.mk "n1" "X" "#D2D2D2" "12" [])
    rfl rfl rfl

/-! ## Claim C7: which documents the engine mutates -/

def c7G1 : TopGraph := { nodes := [GNode.mk "n0" "A" "#D2D2D2" "12" []], edges := [] }

def c7G2 : TopGraph := { nodes := [GNode.mk "n0" "A" "#FFFFFF" "12" []], edges := [] }

def c7St : Engine := { gdict1 := c7G1, gdict2 := c7G2, recolor1 := none, recolor2 := none }

def c7run : Engine × TopGraph × TopGraph :=
  match diffGraphsMatrixE 20 c7St instColors with
  | .ok r => r
  | .error _ => (c7St, c7G1, c7G1)

/-- Counterexample to claim C7: the diff engine rewrites the font sizes
of the parsed input documents themselves — after a matrix run the
engine's first input document reports font size 20 at label path A
where the original parse had 12. -/
theorem c7_originals_mutated_counterexample :
    diffGraphsMatrixE 20 c7St instColors = .ok c7run ∧
    (findPathN c7St.gdict1.nodes ["A"]).map GNode.fontSize = some "12" ∧
    (findPathN c7run.1.gdict1.nodes ["A"]).map GNode.fontSize = some "20" ∧
    (findPathN c7run.1.gdict2.nodes ["A"]).map GNode.fontSize = some "20" ∧
    ("12" : String) ≠ "20" :=
  ⟨rfl, rfl, rfl, rfl, by decide⟩

/-- Claim C7 (amended): a matrix run applies the font-size pass to the
original parsed inputs in place, once per diff direction — after the
run each input document equals its original with the font pass applied
twice — while the flat recoloring passes act on copies; apart from the
font attribute the inputs are preserved: at every label path of either
original the mutated document holds a node with the same index path,
label and fill color, and font size 20. -/
theorem c7_font_pass_mutates_inputs_twice (fuel : Nat) (st : Engine) (cols : Palette)
    (st2 : Engine) (dg1 dg2 : TopGraph)
    (h : diffGraphsMatrixE fuel st cols = .ok (st2, dg1, dg2)) :
    st2.gdict1 = resizeFonts fuel (resizeFonts fuel st.gdict1 20) 20 ∧
    st2.gdict2 = resizeFonts fuel (resizeFonts fuel st.gdict2 20) 20 ∧
    (∀ p ip n, findPathLoc st.gdict1.nodes p = some (ip, n) →
      ∃ n', findPathLoc st2.gdict1.nodes p = some (ip, n') ∧
        n'.label = n.label ∧ n'.color = n.color ∧ n'.fontSize = toString 20) ∧
    (∀ p ip n, findPathLoc st.gdict2.nodes p = some (ip, n) →
      ∃ n', findPathLoc st2.gdict2.nodes p = some (ip, n') ∧
        n'.label = n.label ∧ n'.color = n.color ∧ n'.fontSize = toString 20) := by
  obtain ⟨st1, rm1, rm2, hA, hB⟩ := diffGraphsMatrixE_inv h
  obtain ⟨painted1, rc1, rc2, hpaint1, hrc1, hrc2, hst1, -, -⟩ := findDiffE_inv hA
  obtain ⟨painted2, rc1b, rc2b, hpaint2, hrc1b, hrc2b, hst2, -, -⟩ := findDiffE_inv hB
  have hcert1 : recolorForest fuel instColors.g1 st.gdict1.nodes = .ok rc1.nodes := by
    have hx := hrc1
    unfold recolorGraph at hx
    rw [emap_ok] at hx
    obtain ⟨ns, hns, hrc⟩ := hx
    rw [← hrc]
    exact hns
  have hcert2 : recolorForest fuel instColors.g2 st.gdict2.nodes = .ok rc2.nodes := by
    have hx := hrc2
    unfold recolorGraph at hx
    rw [emap_ok] at hx
    obtain ⟨ns, hns, hrc⟩ := hx
    rw [← hrc]
    exact hns
  have hcert1b : recolorForest fuel instColors.g1 (resizeForest fuel 20 st.gdict1.nodes)
      = .ok rc1b.nodes := by
    have hx := hrc1b
    rw [hst1] at hx
    unfold recolorGraph at hx
    rw [emap_ok] at hx
    obtain ⟨ns, hns, hrc⟩ := hx
    rw [← hrc]
    exact hns
  have hcert2b : recolorForest fuel instColors.g2 (resizeForest fuel 20 st.gdict2.nodes)
      = .ok rc2b.nodes := by
    have hx := hrc2b
    rw [hst1] at hx
    unfold recolorGraph at hx
    rw [emap_ok] at hx
    obtain ⟨ns, hns, hrc⟩ := hx
    rw [← hrc]
    exact hns
  have hst2g1 : st2.gdict1 = resizeFonts fuel (resizeFonts fuel st.gdict1 20) 20 := by
    rw [hst2, hst1]
  have hst2g2 : st2.gdict2 = resizeFonts fuel (resizeFonts fuel st.gdict2 20) 20 := by
    rw [hst2, hst1]
  refine ⟨hst2g1, hst2g2, ?_, ?_⟩
  · intro p ip n hfp
    obtain ⟨n', hfp', hl', hc', -⟩ :=
      recolor_resize_findPath 20 p fuel st.gdict1.nodes rc1.nodes ip n hcert1 hfp
    obtain ⟨n'', hfp'', hl'', hc'', hf''⟩ :=
      recolor_resize_findPath 20 p fuel (resizeForest fuel 20 st.gdict1.nodes)
        rc1b.nodes ip n' hcert1b hfp'
    refine ⟨n'', ?_, by rw [hl'', hl'], by rw [hc'', hc'], hf''⟩
    rw [hst2g1]
    exact hfp''
  · intro p ip n hfp
    obtain ⟨n', hfp', hl', hc', -⟩ :=
      recolor_resize_findPath 20 p fuel st.gdict2.nodes rc2.nodes ip n hcert2 hfp
    obtain ⟨n'', hfp'', hl'', hc'', hf''⟩ :=
      recolor_resize_findPath 20 p fuel (resizeForest fuel 20 st.gdict2.nodes)
        rc2b.nodes ip n' hcert2b hfp'
    refine ⟨n'', ?_, by rw [hl'', hl'], by rw [hc'', hc'], hf''⟩
    rw [hst2g2]
    exact hfp''

/-- Witness for the amended C7 on a concrete matrix run. -/
theorem c7_font_pass_mutates_inputs_twice_witness :
    c7run.1.gdict1 = resizeFonts 20 (resizeFonts 20 c7St.gdict1 20) 20 ∧
    c7run.1.gdict2 = resizeFonts 20 (resizeFonts 20 c7St.gdict2 20) 20 ∧
    (∀ p ip n, findPathLoc c7St.gdict1.nodes p = some (ip, n) →
      ∃ n', findPathLoc c7run.1.gdict1.nodes p = some (ip, n') ∧
        n'.label = n.label ∧ n'.color = n.color ∧ n'.fontSize = toString 20) ∧
    (∀ p ip n, findPathLoc c7St.gdict2.nodes p = some (ip, n) →
      ∃ n', findPathLoc c7run.1.gdict2.nodes p = some (ip, n') ∧
        n'.label = n.label ∧ n'.color = n.color ∧ n'.fontSize = toString 20) :=
  c7_font_pass_mutates_inputs_twice 20 c7St instColors c7run.1 c7run.2.1 c7run.2.2 rfl

/-- Witness for C3: a concrete successful union run whose output edge
list is duplicate-free. -/
theorem c3_union_edge_dedup_witness :
    List.Pairwise (fun a b => ¬ sameUnorderedPair a b) c3run.2.1.edges := by
  refine c3_union_edge_dedup 20 c3St c3G c3G instColors c3run.1 c3run.2.1 c3run.2.2 rfl ?_
  refine List.Pairwise.cons ?_ List.Pairwise.nil
  intro b hb
  simp at hb

end Gdiff
